import Mathlib

/-!
Verification of the `mcp-workspace` project/conversation archive manager
(`project-context-manager`, versions V3.2.2 and V3.3.2) against its
natural-language specification.

JavaScript strings are modelled as lists of characters (`JStr`).  The model is
a shallow embedding of the TypeScript source: every definition below is a
direct translation of a function (or inline expression) of the source files,
with the file and function named in its doc comment.  Nondeterministic inputs
of the source (generated ids, the current clock) are threaded as explicit
parameters.
-/

set_option autoImplicit false

namespace MCP

/-- JavaScript strings, modelled as lists of Unicode scalar values.
(`String.prototype.length` counts UTF-16 units; for the Basic Multilingual
Plane characters appearing in this development the two counts coincide.) -/
abbrev JStr := List Char

/-- Conversion from a Lean string literal to the model's string type. -/
def str (s : String) : JStr := s.data

/-- Does the list start with the given prefix?  Models
`String.prototype.startsWith` and is the matching step of `containsSub`. -/
def listStarts : JStr → JStr → Bool
  | _, [] => true
  | [], _ :: _ => false
  | c :: s, d :: t => c = d && listStarts s t

/-- Substring containment test; models `String.prototype.includes`. -/
def containsSub : JStr → JStr → Bool
  | [], sub => sub.isEmpty
  | c :: s, sub => listStarts (c :: s) sub || containsSub s sub

/-- ASCII lower-casing of one character.  Models the effect of
`String.prototype.toLowerCase` on the ASCII range; the non-ASCII characters
appearing in the source's keyword tables are already lower case. -/
def lowerChar (c : Char) : Char :=
  if 'A' ≤ c ∧ c ≤ 'Z' then Char.ofNat (c.toNat + 32) else c

/-- Models `String.prototype.toLowerCase` (ASCII range). -/
def toLowerCase (s : JStr) : JStr := s.map lowerChar

/-- The white-space set recognised by `String.prototype.trim`
(ECMAScript WhiteSpace plus LineTerminator code points). -/
def jsWhitespace (c : Char) : Bool :=
  c ∈ (['\t', '\n', '\u000B', '\u000C', '\r', '\u0020', '\u00A0', '\u1680',
        '\u2000', '\u2001', '\u2002', '\u2003', '\u2004', '\u2005', '\u2006',
        '\u2007', '\u2008', '\u2009', '\u200A', '\u202F', '\u205F', '\u3000',
        '\uFEFF', '\u2028', '\u2029'] : List Char)

/-- Remove leading white space; the front half of `String.prototype.trim`. -/
def trimLeft (s : JStr) : JStr := s.dropWhile jsWhitespace

/-- Remove trailing white space; the back half of `String.prototype.trim`. -/
def trimRight (s : JStr) : JStr := (s.reverse.dropWhile jsWhitespace).reverse

/-- Models `String.prototype.trim`. -/
def jsTrim (s : JStr) : JStr := trimLeft (trimRight s)

/-- The character class `[\u0000-\u001F\u007F-\u009F]` of C0 and C1 control
characters removed by `sanitizeForJson`. -/
def isC0C1 (c : Char) : Bool :=
  (c.toNat ≤ 0x1F) || (0x7F ≤ c.toNat && c.toNat ≤ 0x9F)

/-- The four character-wise replacement passes of `sanitizeForJson`
(src/unnamed/part_002 lines 49–53, identically
src/project-context-manager/src/index.ts.backup20250813 lines 63–67):
replace `"` by `'`, replace CR/LF/TAB by a space, replace `\` by `/`, and
strip C0/C1 control characters. -/
def sanitizePasses (s : JStr) : JStr :=
  (((s.map (fun c => if c = '"' then '\'' else c)).map
      (fun c => if c = '\r' ∨ c = '\n' ∨ c = '\t' then ' ' else c)).map
    (fun c => if c = '\\' then '/' else c)).filter (fun c => !isC0C1 c)

/-- `sanitizeForJson` (part_002 lines 46–55, identically backup20250813
lines 60–69): the four replacement passes followed by `trim`.  The guard
`if (!text || typeof text !== 'string') return ''` maps the empty string to
itself (the type test is vacuous in the typed model). -/
def sanitizeForJson (s : JStr) : JStr :=
  if s.isEmpty then [] else jsTrim (sanitizePasses s)

/-- `safeString` (part_002 lines 73–75): sanitize when the value is a
nonempty string, otherwise the empty string. -/
def safeString (s : JStr) : JStr := sanitizeForJson s

/-- `safeToLowerCase` (part_002 lines 69–71). -/
def safeToLowerCase (s : JStr) : JStr := toLowerCase s

/-- Models `Array.prototype.slice(0, n)`. -/
def jsSliceTo (l : List JStr) (n : Nat) : List JStr := l.take n

/-- Models `Array.prototype.slice(a, b)` for nonnegative bounds. -/
def jsSliceRange (l : List JStr) (a b : Nat) : List JStr := (l.take b).drop a

/-- Models `Array.prototype.slice(-n)` for a nonnegative number `n`,
including the JavaScript corner case `slice(-0) = slice(0)`, which returns
the whole array. -/
def jsSliceLast (l : List JStr) (n : Nat) : List JStr :=
  if n = 0 then l else l.drop (l.length - n)

/-- A nonnegative rational factor, carried as numerator and denominator.
The source works with binary floating-point literals (`0.5`, `0.2`, `0.6`,
`0.3`, `0.7`, `0.1`); for the factors and counts appearing in this
development the floating-point computation coincides with exact rational
arithmetic. -/
structure Ratio where
  num : Nat
  den : Nat
  deriving DecidableEq, Repr

/-- Models `Math.floor(n * q)` for a natural count `n` and a nonnegative
factor `q`: with exact arithmetic the floor of `n * num / den` is the
integer division `n * num / den`. -/
def jsFloorMul (n : Nat) (q : Ratio) : Nat := n * q.num / q.den

/-- Models `String.prototype.split(sep)` for a one-character separator:
splitting the empty string yields one empty field, and `k` separators yield
`k + 1` fields. -/
def splitOnChar (sep : Char) (s : JStr) : List JStr :=
  s.foldr
    (fun c acc =>
      match acc with
      | [] => if c = sep then [[], []] else [[c]]
      | f :: rest => if c = sep then [] :: (f :: rest) else (c :: f) :: rest)
    [[]]

/-- Models `Array.prototype.join(sep)` for a list of lines. -/
def joinLines (sep : Char) (ls : List JStr) : JStr := List.intercalate [sep] ls

/-- The error conditions of the specification's taxonomy.  The source raises
every one of them as `McpError(ErrorCode.InvalidParams, message)`; the
distinct messages are modelled as distinct constructors. -/
inductive Err where
  | notFound
  | duplicateName
  | confirmationRequired
  | invalidParams
  | noCurrentProject
  deriving DecidableEq, Repr

instance {ε α : Type} [DecidableEq ε] [DecidableEq α] : DecidableEq (Except ε α) :=
  fun x y =>
    match x, y with
    | Except.ok a, Except.ok b =>
      if h : a = b then Decidable.isTrue (by rw [h])
      else Decidable.isFalse (fun hc => h (Except.ok.inj hc))
    | Except.error a, Except.error b =>
      if h : a = b then Decidable.isTrue (by rw [h])
      else Decidable.isFalse (fun hc => h (Except.error.inj hc))
    | Except.ok _, Except.error _ => Decidable.isFalse (fun hc => Except.noConfusion hc)
    | Except.error _, Except.ok _ => Decidable.isFalse (fun hc => Except.noConfusion hc)

/-- The `Project` interface (part_002 lines 78–87, backup20250813 lines
87–96). -/
structure Project where
  id : JStr
  name : JStr
  description : JStr
  type : JStr
  technologies : List JStr
  created : JStr
  phase : JStr
  status : JStr
  deriving DecidableEq, Repr

/-- The `Conversation` interface (part_002 lines 89–100, backup20250813
lines 98–109).  `archiveType` is stored as the raw string supplied by the
caller. -/
structure Conversation where
  id : JStr
  project_id : JStr
  summary : JStr
  phase : JStr
  content : JStr
  timestamp : JStr
  originalId : Option JStr := none
  isArchived : Option Bool := none
  archiveType : Option JStr := none
  originalLength : Option Nat := none
  deriving DecidableEq, Repr

/-- The `Note` interface (part_002 lines 102–108). -/
structure Note where
  id : JStr
  title : JStr
  content : JStr
  timestamp : JStr
  project_id : Option JStr := none
  deriving DecidableEq, Repr

/-- The `TechnicalDecision` interface (part_002 lines 110–117). -/
structure TechnicalDecision where
  id : JStr
  project_id : JStr
  decision : JStr
  reasoning : JStr
  impact : JStr
  timestamp : JStr
  deriving DecidableEq, Repr

/-- The `Documentation` interface (part_002 lines 119–127). -/
structure Documentation where
  id : JStr
  project_id : JStr
  technology : JStr
  title : JStr
  content : JStr
  relevance : JStr
  timestamp : JStr
  deriving DecidableEq, Repr

/-- One value of the `ConversationMapping` interface (part_002 lines
129–137). -/
structure MapEntry where
  newId : JStr
  projectId : JStr
  title : JStr
  date : JStr
  phase : JStr
  deriving DecidableEq, Repr

/-- The `ConversationMapping` object: an insertion-ordered association list
of unique keys, the model of a plain JavaScript object used as a map. -/
abbrev Mapping := List (JStr × MapEntry)

/-- First value stored under a key; models `mapping[key]` access and the
fact that JavaScript object keys are unique. -/
def lookupM (k : JStr) (m : Mapping) : Option MapEntry :=
  (m.find? (fun kv => kv.1 = k)).map (fun kv => kv.2)

/-- Models the object spread `{ ...a, ...b }`: keys of `a` in their original
order with values overridden by `b` where present, followed by the keys of
`b` not present in `a`, in the order of `b`. -/
def mergeMapping (a b : Mapping) : Mapping :=
  (a.map (fun kv => (kv.1, (lookupM kv.1 b).getD kv.2))) ++
    b.filter (fun kv => lookupM kv.1 a = none)

/-- The mutable module-level state of both server versions (part_002 lines
139–146, backup20250813 lines 148–155).  `currentProject` stores the id of
the referenced project: the source keeps an object reference into
`projects`, which the model represents by id-based lookup. -/
structure Store where
  projects : List Project := []
  conversations : List Conversation := []
  notes : List Note := []
  decisions : List TechnicalDecision := []
  documentation : List Documentation := []
  currentProject : Option JStr := none
  idMapping : Mapping := []
  deriving DecidableEq, Repr

/-- Field update applied to the first list element with the given id; models
`const c = list.find(...); mutate c` on an array of objects, which changes
only the first matching element in place. -/
def updateFirstConv (cid : JStr) (f : Conversation → Conversation) :
    List Conversation → List Conversation
  | [] => []
  | c :: rest =>
    if c.id = cid then f c :: rest else c :: updateFirstConv cid f rest

/-- Same as `updateFirstConv`, for projects. -/
def updateFirstProject (pid : JStr) (f : Project → Project) :
    List Project → List Project
  | [] => []
  | p :: rest =>
    if p.id = pid then f p :: rest else p :: updateFirstProject pid f rest

/-- Models the JavaScript idiom `a || b` for an optional string argument:
the default `b` is used when the argument is absent or the empty string. -/
def jsOrStr (a : Option JStr) (b : JStr) : JStr :=
  match a with
  | some s => if s.isEmpty then b else s
  | none => b

/-- Models comparison of `new Date(t).toDateString()` values for ISO-8601
timestamps: two timestamps map to the same date string exactly when their
leading `YYYY-MM-DD` component agrees (time-zone conversion is the identity
in the model). -/
def toDateStr (ts : JStr) : JStr := ts.take 10

namespace V322

/-- `createConversationSummary` (part_002 lines 234–273).  The reduction
ratio is the rational counterpart of the source's floating-point
`targetReduction` (default `0.5`); the literals `0.2`, `0.6`, `0.3`, `0.7`
appear as the ratios `1/5`, `3/5`, `3/10`, `7/10`. -/
def createConversationSummary (fullContent : JStr) (targetReduction : Ratio) : JStr :=
  let lines := splitOnChar '\n' fullContent
  let totalLines := lines.length
  let targetLines := jsFloorMul totalLines targetReduction
  let startLines := jsFloorMul targetLines ⟨1, 5⟩
  let middleLines := jsFloorMul targetLines ⟨3, 5⟩
  let middleStart := jsFloorMul totalLines ⟨3, 10⟩
  let middleEnd := jsFloorMul totalLines ⟨7, 10⟩
  let middleSection := jsSliceRange lines middleStart middleEnd
  let importantMiddle :=
    (middleSection.filter (fun line =>
      containsSub line (str "```") || listStarts line (str "#") ||
      containsSub line (str "IMPORTANT") || containsSub line (str "ERROR") ||
      containsSub line (str "SUCCESS") || decide (100 < line.length))).take middleLines
  let endLines := jsFloorMul targetLines ⟨1, 5⟩
  joinLines '\n'
    (((str "=== DEBUT DE CONVERSATION ===") :: jsSliceTo lines startLines) ++
     ((str "\n=== SECTION PRINCIPALE (RESUME) ===") :: importantMiddle) ++
     ((str "\n=== FIN DE CONVERSATION ===") :: jsSliceLast lines endLines))

/-- `detectConversationPhase` (part_002 lines 275–299).  The guard for a
non-string argument is vacuous in the typed model. -/
def detectConversationPhase (content : JStr) : JStr :=
  let cl := toLowerCase content
  if containsSub cl (str "initial") || containsSub cl (str "setup") ||
     containsSub cl (str "création") then str "initial-setup"
  else if containsSub cl (str "development") || containsSub cl (str "implémentation") ||
     containsSub cl (str "code") then str "development"
  else if containsSub cl (str "debug") || containsSub cl (str "erreur") ||
     containsSub cl (str "fix") then str "debugging"
  else if containsSub cl (str "test") || containsSub cl (str "validation") then str "testing"
  else if containsSub cl (str "optimization") || containsSub cl (str "amélioration") then
    str "optimization"
  else if containsSub cl (str "finalization") || containsSub cl (str "production") then
    str "finalization"
  else str "development"

/-- The pairwise duplicate condition of `detectDuplicateConversations`
(part_002 lines 318–335): `titleSimilarity`, `contentSimilarity`,
`sameDayCreation` and the disjunction
`(titleSimilarity && sameDayCreation) || (contentSimilarity &&
titleSimilarity) || currentSummary.toLowerCase().includes('doublon')`.
The length comparison `Math.abs(a - b) < a * 0.1` is scaled by ten to the
exact integer comparison `10 * |a - b| < a`. -/
def isDuplicatePair (current other : Conversation) : Bool :=
  let currentSummary := safeString current.summary
  let otherSummary := safeString other.summary
  let titleSimilarity :=
    containsSub (safeToLowerCase currentSummary) (str "doublon") ||
    containsSub (safeToLowerCase otherSummary) (str "doublon") ||
    decide (currentSummary = otherSummary)
  let contentSimilarity :=
    decide (100 < current.content.length) && decide (100 < other.content.length) &&
    decide (10 * ((current.content.length : ℤ) - (other.content.length : ℤ)).natAbs <
      current.content.length)
  let sameDayCreation := decide (toDateStr current.timestamp = toDateStr other.timestamp)
  (titleSimilarity && sameDayCreation) || (contentSimilarity && titleSimilarity) ||
    containsSub (safeToLowerCase currentSummary) (str "doublon")

/-- Return value of `detectDuplicateConversations`. -/
structure DupResult where
  duplicates : List Conversation
  groups : List (List Conversation)
  deriving DecidableEq, Repr

/-- The scanning loop of `detectDuplicateConversations` (part_002 lines
309–347): the outer loop skips conversations whose id is already in
`checkedIds`; the inner loop collects every later conversation matching
`isDuplicatePair` with the anchor, marking it checked; a group is emitted
when at least one match was found, and all members after the anchor are
appended to the flat duplicate list. -/
def detectAux : List Conversation → List JStr → DupResult
  | [], _ => ⟨[], []⟩
  | c :: rest, checked =>
    if c.id ∈ checked then detectAux rest checked
    else
      let matched := rest.filter (fun o => isDuplicatePair c o)
      let r := detectAux rest (c.id :: (matched.map (fun o => o.id)) ++ checked)
      if matched.isEmpty then r
      else ⟨matched ++ r.duplicates, (c :: matched) :: r.groups⟩

/-- `detectDuplicateConversations` (part_002 lines 304–350). -/
def detectDuplicateConversations (conversations : List Conversation) : DupResult :=
  detectAux conversations []

/-- `resolveConversationId`, mapping phase (part_002 lines 505–509): the
first mapping entry whose key or stored `newId` equals the input wins. -/
def resolveAux (input : JStr) : Mapping → Option JStr
  | [] => none
  | (oldId, data) :: rest =>
    if oldId = input ∨ data.newId = input then some data.newId
    else resolveAux input rest

/-- `resolveConversationId` (part_002 lines 504–513). -/
def resolveConversationId (st : Store) (input : JStr) : Option JStr :=
  match resolveAux input st.idMapping with
  | some nid => some nid
  | none =>
    match st.conversations.find?
        (fun c => decide (c.id = input) || decide (c.originalId = some input)) with
    | some c => some c.id
    | none => none

/-- The per-conversation loop of `regenerateAllConversationIds` (part_002
lines 454–474), threading the loop index: conversation `i` receives the
generated id `gen i`, its previous id becomes `originalId` and a mapping
entry old-id to new-id is recorded.  `gen` stands for the successive
results of `generateId()` and `now` for `new Date().toISOString()`. -/
def regenFrom (gen : Nat → JStr) (now : JStr) :
    Nat → List Conversation → List Conversation × Mapping
  | _, [] => ([], [])
  | i, c :: rest =>
    ({ c with id := gen i, originalId := some c.id } :: (regenFrom gen now (i + 1) rest).1,
     (c.id,
       { newId := gen i,
         projectId := c.project_id,
         title := jsOrStr (some (safeString c.summary))
           ((str "Conversation ") ++ (Nat.repr (i + 1)).data),
         date := jsOrStr (some c.timestamp) now,
         phase := jsOrStr (some c.phase) (str "unknown") }) ::
       (regenFrom gen now (i + 1) rest).2)

/-- `regenerateAllConversationIds` (part_002 lines 447–499); the returned
message and statistics are omitted, the state effect is kept. -/
def regenerateAllConversationIds (gen : Nat → JStr) (now : JStr) (st : Store) : Store :=
  { st with conversations := (regenFrom gen now 0 st.conversations).1,
            idMapping := mergeMapping st.idMapping (regenFrom gen now 0 st.conversations).2 }

/-- The `create_project` request handler of V3.2.2 (part_002 lines
905–947): no duplicate-name check is performed.  `newId` stands for
`generateId()` and `now` for `new Date().toISOString()`. -/
def createProject (newId now : JStr) (name description project_type : JStr)
    (technologies : List JStr) (st : Store) : Except Err Project × Store :=
  let newProject : Project :=
    { id := newId, name := sanitizeForJson name,
      description := sanitizeForJson description, type := project_type,
      technologies := technologies, created := now,
      phase := str "initial-setup", status := str "active" }
  (Except.ok newProject,
   { st with projects := st.projects ++ [newProject],
             currentProject := some newProject.id })

/-- The `import_claude_conversation` request handler (part_002 lines
1046–1110). -/
def importClaudeConversation (newId now : JStr)
    (conversation_text summary : JStr) (phase : Option JStr)
    (archive_type : JStr) (st : Store) : Except Err Conversation × Store :=
  match st.currentProject with
  | none => (Except.error Err.noCurrentProject, st)
  | some pid =>
    let detectedPhase := jsOrStr phase (detectConversationPhase conversation_text)
    let originalLength := conversation_text.length
    let finalContent :=
      if archive_type = str "summary" then
        createConversationSummary conversation_text ⟨1, 2⟩
      else conversation_text
    let conversation : Conversation :=
      { id := newId, project_id := pid, summary := sanitizeForJson summary,
        phase := detectedPhase, content := finalContent, timestamp := now,
        isArchived := some true, archiveType := some archive_type,
        originalLength := some originalLength }
    (Except.ok conversation,
     { st with conversations := st.conversations ++ [conversation] })

/-- The in-place rewrite performed by the `archive_conversation_summary`
request handler (part_002 lines 1124–1130). -/
def summarizeUpdate (reduction_ratio : Ratio) (c : Conversation) : Conversation :=
  { c with content := createConversationSummary c.content reduction_ratio,
           archiveType := some (str "summary"),
           originalLength := some c.content.length }

/-- The `archive_conversation_summary` request handler (part_002 lines
1112–1155): the conversation is looked up by exact id name and rewritten in
place. -/
def archiveConversationSummary (conversation_id : JStr) (reduction_ratio : Ratio)
    (st : Store) : Except Err Conversation × Store :=
  match st.conversations.find? (fun c => decide (c.id = conversation_id)) with
  | none => (Except.error Err.notFound, st)
  | some conversation =>
    (Except.ok (summarizeUpdate reduction_ratio conversation),
     { st with conversations :=
        (updateFirstConv conversation_id (summarizeUpdate reduction_ratio)
          st.conversations) })

end V322

namespace V332

/-- Return value of `deleteProjectCompletely` (backup20250813 lines
524–530). -/
structure DeletionResult where
  project : Project
  deletedConversations : Nat
  deletedNotes : Nat
  deletedDecisions : Nat
  deletedDocumentation : Nat
  deriving DecidableEq, Repr

/-- `deleteProjectCompletely` (backup20250813 lines 524–564): count the
dependent rows of the project, remove them and the project, and reassign
the current project to the first remaining project (or none) when the
deleted project was current. -/
def deleteProjectCompletely (projectId : JStr) (st : Store) :
    Except Err DeletionResult × Store :=
  match st.projects.find? (fun p => decide (p.id = projectId)) with
  | none => (Except.error Err.notFound, st)
  | some project =>
    let projectConversations := st.conversations.filter (fun c => decide (c.project_id = projectId))
    let projectNotes := st.notes.filter (fun n => decide (n.project_id = some projectId))
    let projectDecisions := st.decisions.filter (fun d => decide (d.project_id = projectId))
    let projectDocs := st.documentation.filter (fun d => decide (d.project_id = projectId))
    let conversations2 := st.conversations.filter (fun c => decide (c.project_id ≠ projectId))
    let notes2 := st.notes.filter (fun n => decide (n.project_id ≠ some projectId))
    let decisions2 := st.decisions.filter (fun d => decide (d.project_id ≠ projectId))
    let documentation2 := st.documentation.filter (fun d => decide (d.project_id ≠ projectId))
    let projects2 := st.projects.filter (fun p => decide (p.id ≠ projectId))
    let current2 :=
      if st.currentProject = some projectId then (projects2.head?).map (fun p => p.id)
      else st.currentProject
    (Except.ok
      { project := project,
        deletedConversations := projectConversations.length,
        deletedNotes := projectNotes.length,
        deletedDecisions := projectDecisions.length,
        deletedDocumentation := projectDocs.length },
     { st with projects := projects2, conversations := conversations2,
               notes := notes2, decisions := decisions2,
               documentation := documentation2, currentProject := current2 })

/-- The `delete_project` request handler (backup20250813 lines 819–862):
without `confirm_deletion: true` the handler raises the confirmation
error before touching any state. -/
def deleteProjectTool (project_id : JStr) (confirm_deletion : Bool) (st : Store) :
    Except Err DeletionResult × Store :=
  if !confirm_deletion then (Except.error Err.confirmationRequired, st)
  else deleteProjectCompletely project_id st

/-- The `create_project` request handler of V3.3.2 (backup20250813 lines
721–770): the raw requested name is compared case-insensitively against the
stored names, then the sanitized name is stored.  `newId` stands for
`generateId()` and `now` for `new Date().toISOString()`. -/
def createProject (newId now : JStr) (projectName description project_type : JStr)
    (technologies : List JStr) (st : Store) : Except Err Project × Store :=
  match st.projects.find? (fun p => decide (toLowerCase p.name = toLowerCase projectName)) with
  | some _ => (Except.error Err.duplicateName, st)
  | none =>
    let project : Project :=
      { id := newId, name := sanitizeForJson projectName,
        description := sanitizeForJson description, type := project_type,
        technologies := technologies.map sanitizeForJson, created := now,
        phase := str "initial-setup", status := str "active" }
    (Except.ok project,
     { st with projects := st.projects ++ [project],
               currentProject := some project.id })

/-- The in-place update performed by the `rename_project` handler
(backup20250813 lines 791–796): the sanitized new name, and the sanitized
new description when one is supplied (the empty string counts as absent,
matching the truthiness test `if (new_description)`). -/
def renameUpdate (new_name : JStr) (new_description : Option JStr)
    (p : Project) : Project :=
  { p with name := sanitizeForJson new_name,
           description :=
             match new_description with
             | some d => if d.isEmpty then p.description else sanitizeForJson d
             | none => p.description }

/-- The `rename_project` request handler (backup20250813 lines 773–817). -/
def renameProject (project_id new_name : JStr) (new_description : Option JStr)
    (st : Store) : Except Err Project × Store :=
  match st.projects.find? (fun p => decide (p.id = project_id)) with
  | none => (Except.error Err.notFound, st)
  | some project =>
    match st.projects.find?
        (fun p => decide (toLowerCase p.name = toLowerCase new_name ∧ p.id ≠ project_id)) with
    | some _ => (Except.error Err.duplicateName, st)
    | none =>
      (Except.ok (renameUpdate new_name new_description project),
       { st with projects :=
          (updateFirstProject project_id (renameUpdate new_name new_description)
            st.projects) })

/-- One legacy storage location's documents, as read by
`detectAndMigrateLegacyData` (backup20250813 lines 217–233): the entity
collections of its `projects.json` and the mapping of its
`conversation_id_mapping.json` (empty when that file is absent). -/
structure LegacyData where
  projects : List Project := []
  conversations : List Conversation := []
  notes : List Note := []
  decisions : List TechnicalDecision := []
  documentation : List Documentation := []
  mapping : Mapping := []
  deriving DecidableEq, Repr

/-- Return value of `detectAndMigrateLegacyData` (backup20250813 lines
210–215); the list of source paths is summarised by the `found` flag. -/
structure MigrationResult where
  found : Bool
  migrated : Nat
  deriving DecidableEq, Repr

/-- The id-based de-duplication of the migration (backup20250813 lines
237–239 and analogous blocks): keep the incoming records whose id is not
already present.  The guard `if (legacy.xs && legacy.xs.length > 0)` of the
source only skips the empty case, on which the filter is empty anyway. -/
def newById {α : Type} (idOf : α → JStr) (cur inc : List α) : List α :=
  inc.filter (fun x => decide (idOf x ∉ cur.map idOf))

/-- Migration of one legacy location (backup20250813 lines 225–271):
append the records not already present by id, count only the newly merged
projects and conversations, and merge the legacy mapping by object
spread. -/
def migrateOne (st : Store) (src : LegacyData) : Store × Nat :=
  let newProjects := newById Project.id st.projects src.projects
  let newConversations := newById Conversation.id st.conversations src.conversations
  let newNotes := newById Note.id st.notes src.notes
  let newDecisions := newById TechnicalDecision.id st.decisions src.decisions
  let newDocumentation := newById Documentation.id st.documentation src.documentation
  ({ st with
      projects := st.projects ++ newProjects,
      conversations := st.conversations ++ newConversations,
      notes := st.notes ++ newNotes,
      decisions := st.decisions ++ newDecisions,
      documentation := st.documentation ++ newDocumentation,
      idMapping := mergeMapping st.idMapping src.mapping },
   newProjects.length + newConversations.length)

/-- The loop of `detectAndMigrateLegacyData` over the legacy locations,
threading the store and the accumulated merge count. -/
def migrateFold : List LegacyData → Store × Nat → Store × Nat
  | [], p => p
  | src :: rest, p =>
    migrateFold rest ((migrateOne p.1 src).1, p.2 + (migrateOne p.1 src).2)

/-- `detectAndMigrateLegacyData` (backup20250813 lines 210–279): fold the
per-location migration over the legacy locations whose documents exist,
accumulating the merge count; `found` reports whether any location had
documents. -/
def detectAndMigrateLegacyData (sources : List LegacyData) (st : Store) :
    Store × MigrationResult :=
  ((migrateFold sources (st, 0)).1,
   { found := !sources.isEmpty, migrated := (migrateFold sources (st, 0)).2 })

end V332

/-- Rule (a) of claim C3, following the claim's words (not the source):
either conversation's summary contains the marker text "doublon"
case-insensitively, and both conversations were created on the same
calendar day. -/
def claimRuleA (c o : Conversation) : Prop :=
  (containsSub (toLowerCase c.summary) (str "doublon") = true ∨
   containsSub (toLowerCase o.summary) (str "doublon") = true) ∧
  toDateStr c.timestamp = toDateStr o.timestamp

/-- Rule (b) of claim C3, following the claim's words (not the source):
both contents have length above 100, the lengths differ by less than 10% of
the first conversation's content length, and the marker appears in a summary
or the two summaries are byte-identical. -/
def claimRuleB (c o : Conversation) : Prop :=
  100 < c.content.length ∧ 100 < o.content.length ∧
  10 * ((c.content.length : ℤ) - (o.content.length : ℤ)).natAbs < c.content.length ∧
  (containsSub (toLowerCase c.summary) (str "doublon") = true ∨
   containsSub (toLowerCase o.summary) (str "doublon") = true ∨
   c.summary = o.summary)

instance (c o : Conversation) : Decidable (claimRuleA c o) := by
  unfold claimRuleA
  exact inferInstance

instance (c o : Conversation) : Decidable (claimRuleB c o) := by
  unfold claimRuleB
  exact inferInstance


/-- A prefix of a list that starts with an unsatisfied element (or is
empty) also starts with an unsatisfied element (or is empty). -/
theorem dropWhile_prefix_eq (p : Char → Bool) (w r : JStr) (hw : w <+: r)
    (hr : r.dropWhile p = r) : w.dropWhile p = w := by
  cases w with
  | nil => simp
  | cons c t =>
    cases r with
    | nil => simp at hw
    | cons d u =>
      have hcd : c = d := by
        obtain ⟨k, hk⟩ := hw
        have := hk
        simp at this
        exact this.1
      by_cases h : p d
      · exfalso
        rw [List.dropWhile_cons, if_pos h] at hr
        have hsuf : List.dropWhile p u <:+ u := List.dropWhile_suffix p
        rw [hr] at hsuf
        have := hsuf.length_le
        simp at this
      · rw [List.dropWhile_cons, if_neg (by rw [hcd]; exact h)]

/-- Elements of the trimmed string are elements of the string. -/
theorem mem_jsTrim {c : Char} {l : JStr} (h : c ∈ jsTrim l) : c ∈ l := by
  have h1 : c ∈ trimRight l :=
    (List.dropWhile_suffix jsWhitespace (l := trimRight l)).subset h
  have h2 := (List.dropWhile_suffix jsWhitespace (l := l.reverse)).subset
    (by simpa [trimRight] using (List.mem_reverse.2 h1))
  exact List.mem_reverse.1 h2

/-- Trimming is idempotent. -/
theorem jsTrim_idem (l : JStr) : jsTrim (jsTrim l) = jsTrim l := by
  have hz : (trimRight l).reverse.dropWhile jsWhitespace = (trimRight l).reverse := by
    simp [trimRight, List.dropWhile_idempotent]
  have hy : trimRight (jsTrim l) = jsTrim l := by
    have hsuf : jsTrim l <:+ trimRight l := List.dropWhile_suffix jsWhitespace
    have hpre : (jsTrim l).reverse <+: (trimRight l).reverse :=
      List.reverse_prefix.2 hsuf
    have h3 := dropWhile_prefix_eq jsWhitespace _ _ hpre hz
    have h4 : ((jsTrim l).reverse.dropWhile jsWhitespace).reverse =
        (jsTrim l).reverse.reverse := congrArg List.reverse h3
    simpa [trimRight] using h4
  show trimLeft (trimRight (jsTrim l)) = jsTrim l
  rw [hy]
  show (jsTrim l).dropWhile jsWhitespace = jsTrim l
  simpa [jsTrim, trimLeft] using
    List.dropWhile_idempotent jsWhitespace (trimRight l)



/-- Character-level facts about the replacement passes: no double quote,
no carriage return, line feed or tab, no backslash, and no C0/C1 control
character survives them. -/
theorem mem_sanitizePasses {c : Char} {s : JStr} (h : c ∈ sanitizePasses s) :
    c ≠ '"' ∧ c ≠ '\r' ∧ c ≠ '\n' ∧ c ≠ '\t' ∧ c ≠ '\\' ∧ isC0C1 c = false := by
  unfold sanitizePasses at h
  rw [List.mem_filter] at h
  obtain ⟨hmem, hctl⟩ := h
  rw [List.mem_map] at hmem
  obtain ⟨d, hd, rfl⟩ := hmem
  rw [List.mem_map] at hd
  obtain ⟨e, he, rfl⟩ := hd
  rw [List.mem_map] at he
  obtain ⟨f, _, rfl⟩ := he
  refine ⟨?_, ?_, ?_, ?_, ?_, by simpa using hctl⟩ <;> split_ifs <;> simp_all

/-- Character-level facts about the output of `sanitizeForJson`. -/
theorem mem_sanitizeForJson {c : Char} {s : JStr} (h : c ∈ sanitizeForJson s) :
    c ≠ '"' ∧ c ≠ '\r' ∧ c ≠ '\n' ∧ c ≠ '\t' ∧ c ≠ '\\' ∧ isC0C1 c = false := by
  unfold sanitizeForJson at h
  by_cases hs : s.isEmpty
  · simp [hs] at h
  · rw [if_neg hs] at h
    exact mem_sanitizePasses (mem_jsTrim h)

/-- C10: text sanitization is idempotent: for every input string,
`sanitizeForJson (sanitizeForJson s) = sanitizeForJson s` — one pass already
replaces every double quote, carriage return, newline, tab and backslash,
removes every C0/C1 control character and strips the leading and trailing
white space, leaving nothing for a second pass to change. -/
theorem sanitizeForJson_idempotent (s : JStr) :
    sanitizeForJson (sanitizeForJson s) = sanitizeForJson s := by
  by_cases hy : (sanitizeForJson s).isEmpty
  · rw [List.isEmpty_iff] at hy
    rw [hy]
    rfl
  · have hs : ¬ s.isEmpty := by
      intro h
      apply hy
      unfold sanitizeForJson
      simp [h]
    obtain ⟨y, hy_def⟩ : ∃ y, sanitizeForJson s = y := ⟨_, rfl⟩
    rw [hy_def] at hy ⊢
    have hmem := fun c (hc : c ∈ y) => mem_sanitizeForJson (hy_def ▸ hc)
    show sanitizeForJson y = y
    unfold sanitizeForJson
    rw [if_neg hy]
    have hpasses : sanitizePasses y = y := by
      unfold sanitizePasses
      have h1 : y.map (fun c => if c = '"' then '\'' else c) = y := by
        conv_rhs => rw [← List.map_id y]
        refine List.map_congr_left fun a ha => ?_
        simp [(hmem a ha).1]
      rw [h1]
      have h2 : y.map
          (fun c => if c = '\r' ∨ c = '\n' ∨ c = '\t' then ' ' else c) = y := by
        conv_rhs => rw [← List.map_id y]
        refine List.map_congr_left fun a ha => ?_
        obtain ⟨_, hr, hn, ht, _, _⟩ := hmem a ha
        simp [hr, hn, ht]
      rw [h2]
      have h3 : y.map (fun c => if c = '\\' then '/' else c) = y := by
        conv_rhs => rw [← List.map_id y]
        refine List.map_congr_left fun a ha => ?_
        simp [(hmem a ha).2.2.2.2.1]
      rw [h3]
      refine List.filter_eq_self.2 fun a ha => ?_
      simp [(hmem a ha).2.2.2.2.2]
    rw [hpasses]
    have hform : y = jsTrim (sanitizePasses s) := by
      rw [← hy_def]
      unfold sanitizeForJson
      rw [if_neg hs]
    rw [hform, jsTrim_idem]

/-- C7: for every store state and every project id, calling the
`delete_project` handler with `confirm_deletion` false (an absent flag is
falsy and behaves identically) fails with the confirmation-required error
and leaves the store completely unchanged. -/
theorem delete_project_requires_confirmation (st : Store) (project_id : JStr) :
    V332.deleteProjectTool project_id false st =
      (Except.error Err.confirmationRequired, st) := rfl


/-- C1: for every project present in the store, `delete_project` with
`confirm_deletion: true` succeeds; the per-kind counts it returns equal the
numbers of conversations, notes, decisions and documentation rows whose
`project_id` is the project's id; exactly those rows and the project itself
are removed (the remaining collections are the order-preserving filters of
the originals); and afterwards no remaining row of any kind references the
deleted id. -/
theorem delete_project_cascade (st : Store) (P : Project) (hP : P ∈ st.projects) :
    ∃ res st2, V332.deleteProjectTool P.id true st = (Except.ok res, st2) ∧
      res.deletedConversations =
        (st.conversations.filter (fun c => decide (c.project_id = P.id))).length ∧
      res.deletedNotes =
        (st.notes.filter (fun n => decide (n.project_id = some P.id))).length ∧
      res.deletedDecisions =
        (st.decisions.filter (fun d => decide (d.project_id = P.id))).length ∧
      res.deletedDocumentation =
        (st.documentation.filter (fun d => decide (d.project_id = P.id))).length ∧
      st2.projects = st.projects.filter (fun p => decide (p.id ≠ P.id)) ∧
      st2.conversations = st.conversations.filter (fun c => decide (c.project_id ≠ P.id)) ∧
      st2.notes = st.notes.filter (fun n => decide (n.project_id ≠ some P.id)) ∧
      st2.decisions = st.decisions.filter (fun d => decide (d.project_id ≠ P.id)) ∧
      st2.documentation = st.documentation.filter (fun d => decide (d.project_id ≠ P.id)) ∧
      (∀ p ∈ st2.projects, p.id ≠ P.id) ∧
      (∀ c ∈ st2.conversations, c.project_id ≠ P.id) ∧
      (∀ n ∈ st2.notes, n.project_id ≠ some P.id) ∧
      (∀ d ∈ st2.decisions, d.project_id ≠ P.id) ∧
      (∀ d ∈ st2.documentation, d.project_id ≠ P.id) := by
  have hfind : (st.projects.find? (fun p => decide (p.id = P.id))).isSome := by
    rw [List.find?_isSome]
    exact ⟨P, hP, by simp⟩
  obtain ⟨q, hq⟩ := Option.isSome_iff_exists.1 hfind
  have h0 : V332.deleteProjectTool P.id true st = V332.deleteProjectCompletely P.id st := rfl
  rw [h0]
  unfold V332.deleteProjectCompletely
  rw [hq]
  refine ⟨_, _, rfl, rfl, rfl, rfl, rfl, rfl, rfl, rfl, rfl, rfl, ?_, ?_, ?_, ?_, ?_⟩ <;>
    intro x hx <;>
    · have := (List.mem_filter.1 hx).2
      simpa using this


/-- A concrete project used by the witnesses. -/
def cProject1 : Project :=
  { id := str "p1", name := str "Alpha", description := str "first",
    type := str "custom", technologies := [], created := str "2025-01-01T00:00:00.000Z",
    phase := str "initial-setup", status := str "active" }

/-- A second concrete project used by the witnesses. -/
def cProject2 : Project :=
  { id := str "p2", name := str "Beta", description := str "second",
    type := str "custom", technologies := [], created := str "2025-01-02T00:00:00.000Z",
    phase := str "development", status := str "active" }

/-- A concrete store with two projects and one dependent row of each kind
under each of them (the second note is unattached). -/
def cStoreC1 : Store :=
  { projects := [cProject1, cProject2],
    conversations :=
      [{ id := str "c1", project_id := str "p1", summary := str "s1",
         phase := str "development", content := str "x",
         timestamp := str "2025-01-01T00:00:00.000Z" },
       { id := str "c2", project_id := str "p2", summary := str "s2",
         phase := str "development", content := str "y",
         timestamp := str "2025-01-02T00:00:00.000Z" }],
    notes :=
      [{ id := str "n1", title := str "t1", content := str "b1",
         timestamp := str "2025-01-01T00:00:00.000Z", project_id := some (str "p1") },
       { id := str "n2", title := str "t2", content := str "b2",
         timestamp := str "2025-01-01T00:00:00.000Z", project_id := none }],
    decisions :=
      [{ id := str "d1", project_id := str "p1", decision := str "dd",
         reasoning := str "r", impact := str "i",
         timestamp := str "2025-01-01T00:00:00.000Z" }],
    documentation :=
      [{ id := str "doc1", project_id := str "p1", technology := str "ts",
         title := str "tt", content := str "cc", relevance := str "high",
         timestamp := str "2025-01-01T00:00:00.000Z" }],
    currentProject := some (str "p1"),
    idMapping := [] }

/-- Witness for C1: on the concrete store, deleting project `p1` with
confirmation succeeds and reports exactly one deleted conversation, one
note, one decision and one documentation row. -/
theorem delete_project_cascade_witness :
    cProject1 ∈ cStoreC1.projects ∧
    ∃ res st2, V332.deleteProjectTool cProject1.id true cStoreC1 = (Except.ok res, st2) ∧
      res.deletedConversations = 1 ∧ res.deletedNotes = 1 ∧
      res.deletedDecisions = 1 ∧ res.deletedDocumentation = 1 := by
  refine ⟨by decide, ?_⟩
  obtain ⟨res, st2, h1, h2, h3, h4, h5, _⟩ :=
    delete_project_cascade cStoreC1 cProject1 (by decide)
  refine ⟨res, st2, h1, ?_, ?_, ?_, ?_⟩
  · rw [h2]; decide
  · rw [h3]; decide
  · rw [h4]; decide
  · rw [h5]; decide


/-- A concrete store with one project selected as current. -/
def cStoreC2 : Store :=
  { projects := [cProject1], currentProject := some (str "p1") }

/-- Counterexample to C2 as stated: importing the ten-character single-line
text "abcdefghij" with `archive_type: "summary"` stores a conversation whose
content is 106 characters long (the three section banners plus, because
`lines.slice(-0)` returns the whole array, the entire original text), while
the recorded `originalLength` is 10 — so `content.length ≤ originalLength`
fails. -/
theorem summary_length_bound_counterexample :
    ((V322.importClaudeConversation (str "c9") (str "2025-03-03T00:00:00.000Z")
        (str "abcdefghij") (str "sum") none (str "summary") cStoreC2).1.toOption.map
      (fun conv => (conv.content.length, conv.originalLength))) =
        some (106, some 10) ∧ ¬ (106 ≤ 10) := by decide

/-- C2 (amended): for every conversation stored with
`archive_type: "summary"` — via `import_claude_conversation` or
`archive_conversation_summary` — the recorded `originalLength` is the exact
character length of the text before summarization, and the stored content is
the summarizer's output for that text and ratio (the summarizer is a pure
function, so re-running it on the same text and ratio yields the same
bytes).  The bound `content.length ≤ originalLength` of the original claim
does not hold in general. -/
theorem summary_records_original_length :
    (∀ (newId now text summary : JStr) (phase : Option JStr) (atype : JStr)
        (st : Store) (pid : JStr),
      st.currentProject = some pid →
      ∃ conv st2,
        V322.importClaudeConversation newId now text summary phase atype st =
          (Except.ok conv, st2) ∧
        conv.originalLength = some text.length ∧
        conv.content =
          (if atype = str "summary" then V322.createConversationSummary text ⟨1, 2⟩
           else text) ∧
        st2.conversations = st.conversations ++ [conv]) ∧
    (∀ (cid : JStr) (ratio : Ratio) (st : Store) (conv : Conversation),
      st.conversations.find? (fun c => decide (c.id = cid)) = some conv →
      ∃ conv2 st2,
        V322.archiveConversationSummary cid ratio st = (Except.ok conv2, st2) ∧
        conv2.originalLength = some conv.content.length ∧
        conv2.content = V322.createConversationSummary conv.content ratio ∧
        conv2.archiveType = some (str "summary")) := by
  constructor
  · intro newId now text summary phase atype st pid hcur
    unfold V322.importClaudeConversation
    rw [hcur]
    exact ⟨_, _, rfl, rfl, rfl, rfl⟩
  · intro cid ratio st conv hfind
    unfold V322.archiveConversationSummary
    rw [hfind]
    exact ⟨_, _, rfl, rfl, rfl, rfl⟩

/-- Witness for the amended C2 on concrete inputs: importing the
five-character text "hello" as a summary records `originalLength = 5`, and
summarizing the stored conversation `c1` of the concrete store records its
one-character content length. -/
theorem summary_records_original_length_witness :
    (cStoreC2.currentProject = some (str "p1") ∧
      ∃ conv st2,
        V322.importClaudeConversation (str "c9") (str "2025-03-03T00:00:00.000Z")
          (str "hello") (str "s") none (str "summary") cStoreC2 =
            (Except.ok conv, st2) ∧
        conv.originalLength = some 5) ∧
    (cStoreC1.conversations.find? (fun c => decide (c.id = str "c1")) ≠ none ∧
      ∃ conv2 st2,
        V322.archiveConversationSummary (str "c1") ⟨1, 2⟩ cStoreC1 =
          (Except.ok conv2, st2) ∧
        conv2.originalLength = some 1) := by
  constructor
  · refine ⟨rfl, ?_⟩
    obtain ⟨conv, st2, h1, h2, _⟩ :=
      summary_records_original_length.1 (str "c9") (str "2025-03-03T00:00:00.000Z")
        (str "hello") (str "s") none (str "summary") cStoreC2 (str "p1") rfl
    exact ⟨conv, st2, h1, by rw [h2]; decide⟩
  · have hfind : cStoreC1.conversations.find? (fun c => decide (c.id = str "c1")) =
        some { id := str "c1", project_id := str "p1", summary := str "s1",
               phase := str "development", content := str "x",
               timestamp := str "2025-01-01T00:00:00.000Z" } := by decide
    refine ⟨by rw [hfind]; exact fun h => Option.noConfusion h, ?_⟩
    obtain ⟨conv2, st2, h1, h2, _⟩ :=
      summary_records_original_length.2 (str "c1") ⟨1, 2⟩ cStoreC1 _ hfind
    exact ⟨conv2, st2, h1, by rw [h2]; decide⟩


/-- Concrete conversations for the duplicate-detection claims. -/
def cConvA : Conversation :=
  { id := str "ca", project_id := str "p1", summary := str "x",
    phase := str "d", content := str "a",
    timestamp := str "2025-01-01T00:00:00.000Z" }

/-- Second concrete conversation: its summary carries the marker text. -/
def cConvB : Conversation :=
  { id := str "cb", project_id := str "p1", summary := str "doublon",
    phase := str "d", content := str "b",
    timestamp := str "2025-02-02T00:00:00.000Z" }

/-- Third concrete conversation: same summary and day as the first. -/
def cConvC : Conversation :=
  { id := str "cc", project_id := str "p1", summary := str "x",
    phase := str "d", content := str "c",
    timestamp := str "2025-01-01T00:00:00.000Z" }

/-- Fourth concrete conversation, marker in summary, for C3. -/
def cConvD : Conversation :=
  { id := str "cd", project_id := str "p1", summary := str "doublon",
    phase := str "d", content := str "u",
    timestamp := str "2025-01-01T00:00:00.000Z" }

/-- Fifth concrete conversation: plain summary, created another day. -/
def cConvE : Conversation :=
  { id := str "ce", project_id := str "p1", summary := str "b",
    phase := str "d", content := str "v",
    timestamp := str "2025-02-02T00:00:00.000Z" }

/-- Structure of the groups produced by the scanning loop: every emitted
group consists of an anchor conversation `c` together with exactly those
conversations after `c` in the store that satisfy the code's pairwise
condition `isDuplicatePair c ·`. -/
theorem detectAux_groups_shape (convs : List Conversation) (checked : List JStr)
    (g : List Conversation) (hg : g ∈ (V322.detectAux convs checked).groups) :
    ∃ c l pre, convs = pre ++ c :: l ∧
      g = c :: l.filter (fun o => V322.isDuplicatePair c o) := by
  induction convs generalizing checked with
  | nil => simp [V322.detectAux] at hg
  | cons c rest ih =>
    unfold V322.detectAux at hg
    by_cases hc : c.id ∈ checked
    · rw [if_pos hc] at hg
      obtain ⟨c', l', pre', h1, h2⟩ := ih checked hg
      exact ⟨c', l', c :: pre', by rw [h1]; rfl, h2⟩
    · rw [if_neg hc] at hg
      simp only at hg
      by_cases hm : (rest.filter (fun o => V322.isDuplicatePair c o)).isEmpty
      · rw [if_pos hm] at hg
        obtain ⟨c', l', pre', h1, h2⟩ := ih _ hg
        exact ⟨c', l', c :: pre', by rw [h1]; rfl, h2⟩
      · rw [if_neg hm] at hg
        rcases List.mem_cons.1 hg with h | h
        · exact ⟨c, rest, [], rfl, h⟩
        · obtain ⟨c', l', pre', h1, h2⟩ := ih _ h
          exact ⟨c', l', c :: pre', by rw [h1]; rfl, h2⟩


/-- C3 (amended): each group returned by `detect_duplicates` is an anchor
conversation `c` followed by exactly the conversations appearing after `c`
in the store that satisfy the code's pairwise rule `isDuplicatePair c o`:
(title-similar AND same calendar day) OR (content-similar AND title-similar)
OR the anchor's sanitized summary contains "doublon" case-insensitively —
where title-similar means the marker appears in either sanitized summary or
the two sanitized summaries are equal, and content-similar means both
contents exceed 100 characters and differ in length by less than 10% of the
anchor's.  In particular a pair can be grouped with no same-day and no
content-length condition when the anchor's summary carries the marker. -/
theorem detect_duplicates_grouping (convs : List Conversation)
    (g : List Conversation)
    (hg : g ∈ (V322.detectDuplicateConversations convs).groups) :
    ∃ c l pre, convs = pre ++ c :: l ∧
      g = c :: l.filter (fun o => V322.isDuplicatePair c o) :=
  detectAux_groups_shape convs [] g hg

/-- Witness for the amended C3: in the concrete two-conversation store the
single returned group is decomposed by the theorem. -/
theorem detect_duplicates_grouping_witness :
    [cConvD, cConvE] ∈ (V322.detectDuplicateConversations [cConvD, cConvE]).groups ∧
    ∃ c l pre, [cConvD, cConvE] = pre ++ c :: l ∧
      [cConvD, cConvE] = c :: l.filter (fun o => V322.isDuplicatePair c o) :=
  ⟨by decide, detect_duplicates_grouping [cConvD, cConvE] [cConvD, cConvE] (by decide)⟩

/-- Counterexample to C3 as stated: the conversations `cConvD` (summary
"doublon", day one, one-character content) and `cConvE` (summary "b", day
two, one-character content) are grouped as duplicates by the code — the
anchor's summary containing the marker suffices on its own — although
neither rule (a) (marker and same calendar day) nor rule (b) (both contents
longer than 100) of the claim holds of the pair in either order. -/
theorem detect_duplicates_rule_counterexample :
    (V322.detectDuplicateConversations [cConvD, cConvE]).groups =
      [[cConvD, cConvE]] ∧
    ¬ claimRuleA cConvD cConvE ∧ ¬ claimRuleB cConvD cConvE ∧
    ¬ claimRuleA cConvE cConvD ∧ ¬ claimRuleB cConvE cConvD := by decide

/-- Size and flat-list invariants of the scanning loop, for any starting
`checkedIds` set. -/
theorem detectAux_invariants (convs : List Conversation) (checked : List JStr) :
    (∀ g ∈ (V322.detectAux convs checked).groups, 2 ≤ g.length) ∧
    (V322.detectAux convs checked).duplicates =
      ((V322.detectAux convs checked).groups.map (fun g => g.drop 1)).flatten := by
  induction convs generalizing checked with
  | nil => simp [V322.detectAux]
  | cons c rest ih =>
    unfold V322.detectAux
    by_cases hc : c.id ∈ checked
    · rw [if_pos hc]
      exact ih checked
    · rw [if_neg hc]
      simp only
      by_cases hm : (rest.filter (fun o => V322.isDuplicatePair c o)).isEmpty
      · rw [if_pos hm]
        exact ih _
      · rw [if_neg hm]
        obtain ⟨ih1, ih2⟩ := ih
          (c.id :: ((rest.filter (fun o => V322.isDuplicatePair c o)).map
            (fun o => o.id)) ++ checked)
        constructor
        · intro g hg
          rcases List.mem_cons.1 hg with h | h
          · subst h
            rw [List.isEmpty_iff] at hm
            have hpos := List.length_pos.2 hm
            simp only [List.length_cons]
            omega
          · exact ih1 g h
        · dsimp only
          rw [ih2]
          rfl

/-- C4 (amended): every group returned by `detect_duplicates` has at least
two members, and the flat list of removable duplicates is exactly the
concatenation of the groups' tails (every member except each group's first);
however, a conversation may appear in more than one returned group, because
the inner scan does not skip already-checked conversations. -/
theorem duplicate_groups_amended (convs : List Conversation) :
    (∀ g ∈ (V322.detectDuplicateConversations convs).groups, 2 ≤ g.length) ∧
    (V322.detectDuplicateConversations convs).duplicates =
      ((V322.detectDuplicateConversations convs).groups.map (fun g => g.drop 1)).flatten :=
  detectAux_invariants convs []

/-- Witness for the amended C4 on the concrete three-conversation store:
the first returned group has two members, and the flat duplicate list is
the concatenation of the group tails. -/
theorem duplicate_groups_amended_witness :
    2 ≤ ([cConvA, cConvC] : List Conversation).length ∧
    (V322.detectDuplicateConversations [cConvA, cConvB, cConvC]).duplicates =
      (((V322.detectDuplicateConversations [cConvA, cConvB, cConvC]).groups.map
        (fun g => g.drop 1)).flatten) :=
  ⟨(duplicate_groups_amended [cConvA, cConvB, cConvC]).1 [cConvA, cConvC] (by decide),
   (duplicate_groups_amended [cConvA, cConvB, cConvC]).2⟩

/-- Counterexample to C4 as stated: on the concrete store `[cConvA, cConvB,
cConvC]` the code returns the groups `[[cConvA, cConvC], [cConvB, cConvC]]`
— conversation `cConvC` appears in two distinct groups (it matches the
anchor `cConvA` by equal summaries on the same day, and the anchor `cConvB`
by the marker in `cConvB`'s summary), so a conversation is not in at most
one group. -/
theorem duplicate_groups_counterexample :
    (V322.detectDuplicateConversations [cConvA, cConvB, cConvC]).groups =
      [[cConvA, cConvC], [cConvB, cConvC]] ∧
    ((V322.detectDuplicateConversations [cConvA, cConvB, cConvC]).groups.countP
      (fun g => decide (cConvC ∈ g))) = 2 ∧ ¬ ((2 : Nat) ≤ 1) := by decide


/-- Spreading into an empty object copies the other object. -/
theorem mergeMapping_nil (b : Mapping) : mergeMapping [] b = b := by
  unfold mergeMapping
  simp [lookupM]

/-- A concrete one-conversation store with no legacy mapping, for C5. -/
def cStoreC5 : Store :=
  { conversations :=
      [{ id := str "a", project_id := str "p1", summary := str "s",
         phase := str "d", content := str "w",
         timestamp := str "2025-01-01T00:00:00.000Z" }] }

/-- The concrete store after one id regeneration (id "a" becomes "b"). -/
def cStoreC5b : Store :=
  V322.regenerateAllConversationIds (fun _ => str "b") (str "t1") cStoreC5

/-- The concrete store after a second id regeneration ("b" becomes "c"). -/
def cStoreC5c : Store :=
  V322.regenerateAllConversationIds (fun _ => str "c") (str "t2") cStoreC5b

/-- Counterexample to C5 as stated: after running `regenerateAllIds` twice
on a one-conversation store (id "a" becomes "b", then "c"), the previously
valid id "a" resolves to "b" — the first matching legacy-mapping entry wins
and the chain "a" to "b" to "c" is not followed — but no conversation in
the store has id "b", so resolution does not reach a conversation present
in the store. -/
theorem id_resolution_counterexample :
    V322.resolveConversationId cStoreC5 (str "a") ≠ none ∧
    V322.resolveConversationId cStoreC5b (str "a") ≠ none ∧
    V322.resolveConversationId cStoreC5c (str "a") = some (str "b") ∧
    cStoreC5c.conversations.map (fun c => c.id) = [str "c"] ∧
    ¬ (str "b") ∈ cStoreC5c.conversations.map (fun c => c.id) := by decide

/-- Resolution through the regenerated mapping: if some conversation of the
list carries the requested id, the mapping built by `regenFrom` resolves
the request to the generated id of such a conversation, which is live in
the regenerated list.  The generated ids must be fresh (distinct from every
old id). -/
theorem regenFrom_resolves (gen : Nat → JStr) (now : JStr) :
    ∀ (convs : List Conversation) (x : JStr) (k : Nat),
      (∀ j, ∀ c ∈ convs, gen j ≠ c.id) → (∃ c ∈ convs, c.id = x) →
      ∃ nid, V322.resolveAux x (V322.regenFrom gen now k convs).2 = some nid ∧
        nid ∈ (V322.regenFrom gen now k convs).1.map (fun c => c.id) := by
  intro convs
  induction convs with
  | nil =>
    rintro x k - ⟨c, hc, -⟩
    simp at hc
  | cons c rest ih =>
    rintro x k hfresh ⟨c', hc', hx⟩
    by_cases hcx : c.id = x
    · refine ⟨gen k, ?_, by simp [V322.regenFrom]⟩
      unfold V322.regenFrom V322.resolveAux
      rw [if_pos (Or.inl hcx)]
    · have hc'rest : c' ∈ rest := by
        rcases List.mem_cons.1 hc' with h | h
        · exact absurd (h ▸ hx) hcx
        · exact h
      have hgen : ¬ (c.id = x ∨
          (⟨gen k, c.project_id,
            jsOrStr (some (safeString c.summary))
              ((str "Conversation ") ++ (Nat.repr (k + 1)).data),
            jsOrStr (some c.timestamp) now,
            jsOrStr (some c.phase) (str "unknown")⟩ : MapEntry).newId = x) := by
        rintro (h | h)
        · exact hcx h
        · exact hfresh k c' (List.mem_cons_of_mem c hc'rest) (h.trans hx.symm)
      obtain ⟨nid, h1, h2⟩ :=
        ih x (k + 1) (fun j d hd => hfresh j d (List.mem_cons_of_mem c hd))
          ⟨c', hc'rest, hx⟩
      refine ⟨nid, ?_, ?_⟩
      · unfold V322.regenFrom V322.resolveAux
        rw [if_neg hgen]
        exact h1
      · simp only [V322.regenFrom, List.map_cons, List.mem_cons]
        right
        exact h2

/-- C5 (amended): after a single run of `regenerateAllIds` on a store whose
legacy mapping is empty and whose conversations carry no `originalId` (a
store in which ids were never regenerated before), every identifier that
previously resolved still resolves, via `resolveConversationId`, to the id
of a conversation present in the store — provided the generated ids are
fresh.  A second run breaks the property (see the counterexample): an old
id then resolves through the first, stale mapping entry. -/
theorem regenerate_preserves_resolution (st : Store) (gen : Nat → JStr)
    (now : JStr) (hmap : st.idMapping = [])
    (horig : ∀ c ∈ st.conversations, c.originalId = none)
    (hfresh : ∀ j, ∀ c ∈ st.conversations, gen j ≠ c.id) :
    ∀ x, V322.resolveConversationId st x ≠ none →
      ∃ c2 ∈ (V322.regenerateAllConversationIds gen now st).conversations,
        V322.resolveConversationId (V322.regenerateAllConversationIds gen now st) x =
          some c2.id := by
  intro x hx
  have hmem : ∃ c ∈ st.conversations, c.id = x := by
    unfold V322.resolveConversationId at hx
    rw [hmap] at hx
    simp only [V322.resolveAux] at hx
    rcases hfind : st.conversations.find?
        (fun c => decide (c.id = x) || decide (c.originalId = some x)) with - | c
    · rw [hfind] at hx
      simp at hx
    · have hcmem := List.mem_of_find?_eq_some hfind
      have hcp := List.find?_some hfind
      rcases Bool.or_eq_true_iff.1 hcp with h | h
      · exact ⟨c, hcmem, of_decide_eq_true h⟩
      · rw [horig c hcmem] at h
        simp at h
  obtain ⟨nid, h1, h2⟩ :=
    regenFrom_resolves gen now st.conversations x 0 hfresh hmem
  have hmap2 : (V322.regenerateAllConversationIds gen now st).idMapping =
      (V322.regenFrom gen now 0 st.conversations).2 := by
    show mergeMapping st.idMapping _ = _
    rw [hmap, mergeMapping_nil]
  rw [List.mem_map] at h2
  obtain ⟨c2, hc2, hc2id⟩ := h2
  refine ⟨c2, hc2, ?_⟩
  have hres : V322.resolveConversationId (V322.regenerateAllConversationIds gen now st) x =
      some nid := by
    unfold V322.resolveConversationId
    rw [hmap2, h1]
  rw [hres]
  exact (congrArg some hc2id).symm

/-- Witness for the amended C5: on the concrete one-conversation store, the
previously valid id "a" resolves after one regeneration to the id of a live
conversation. -/
theorem regenerate_preserves_resolution_witness :
    V322.resolveConversationId cStoreC5 (str "a") ≠ none ∧
    ∃ c2 ∈ (V322.regenerateAllConversationIds (fun _ => str "b") (str "t1")
        cStoreC5).conversations,
      V322.resolveConversationId
        (V322.regenerateAllConversationIds (fun _ => str "b") (str "t1") cStoreC5)
        (str "a") = some c2.id := by
  refine ⟨by decide, ?_⟩
  refine regenerate_preserves_resolution cStoreC5 (fun _ => str "b") (str "t1")
    rfl (by decide) ?_ (str "a") (by decide)
  intro j c hc
  simp only [cStoreC5, List.mem_singleton] at hc
  subst hc
  show str "b" ≠ str "a"
  decide


/-- Decomposition of the find-and-mutate update: when a project with the
requested id exists, the list splits as `pre ++ q :: suf` with `q` the first
match, and the update rewrites exactly `q`. -/
theorem updateFirstProject_decomp (pid : JStr) (f : Project → Project) :
    ∀ l : List Project, (∃ q ∈ l, q.id = pid) →
      ∃ pre q suf, l = pre ++ q :: suf ∧ q.id = pid ∧ (∀ r ∈ pre, r.id ≠ pid) ∧
        updateFirstProject pid f l = pre ++ f q :: suf := by
  intro l
  induction l with
  | nil => rintro ⟨q, hq, -⟩; simp at hq
  | cons p rest ih =>
    rintro ⟨q, hq, hqid⟩
    by_cases hp : p.id = pid
    · exact ⟨[], p, rest, rfl, hp, by simp,
        by unfold updateFirstProject; rw [if_pos hp]; rfl⟩
    · have hqrest : q ∈ rest := by
        rcases List.mem_cons.1 hq with h | h
        · exact absurd (h ▸ hqid) hp
        · exact h
      obtain ⟨pre, q', suf, h1, h2, h3, h4⟩ := ih ⟨q, hqrest, hqid⟩
      refine ⟨p :: pre, q', suf, by rw [h1]; rfl, h2, ?_, ?_⟩
      · intro r hr
        rcases List.mem_cons.1 hr with h | h
        · exact h ▸ hp
        · exact h3 r h
      · unfold updateFirstProject
        rw [if_neg hp, h4]
        rfl

/-- A concrete project record as stored by the V3.3.2 `create_project`
handler for the name "A". -/
def cC6proj : Project :=
  { id := str "id1", name := str "A", description := str "d",
    type := str "custom", technologies := [], created := str "t",
    phase := str "initial-setup", status := str "active" }

/-- The store after creating the project named "A" in an empty store. -/
def cStoreC6a : Store :=
  (V332.createProject (str "id1") (str "t") (str "A") (str "d") (str "custom")
    [] {}).2

/-- The result of then requesting a project named "A " (trailing space). -/
def cC6second : Except Err Project × Store :=
  V332.createProject (str "id2") (str "t") (str "A ") (str "d") (str "custom")
    [] cStoreC6a

/-- The store after creating a project named "Alpha" in an empty store with
the V3.2.2 handler. -/
def cStoreC6v1 : Store :=
  (V322.createProject (str "idA") (str "t") (str "Alpha") (str "d")
    (str "custom") [] {}).2

/-- The result of requesting the identical name "Alpha" a second time from
the V3.2.2 handler. -/
def cC6v1second : Except Err Project × Store :=
  V322.createProject (str "idB") (str "t") (str "Alpha") (str "d")
    (str "custom") [] cStoreC6v1

/-- Counterexample to C6 as stated, in both cited handler versions.  The
V3.2.2 `create_project` handler performs no duplicate-name check at all:
with the project "Alpha" present, requesting the identical name "Alpha"
succeeds and the store holds two projects with byte-identical names.  The
V3.3.2 handler does check, but against the raw request while storing the
sanitized name: with "A" present, the request "A " (trailing space)
compares as "a " against "a", passes, and is stored as the trimmed "A" —
so two distinct projects with names equal under case-insensitive
comparison coexist in both versions. -/
theorem project_name_uniqueness_counterexample :
    (cC6v1second.1.toOption.isSome = true ∧
     cC6v1second.2.projects.map (fun p => p.name) = [str "Alpha", str "Alpha"] ∧
     cC6v1second.2.projects.countP
       (fun p => decide (toLowerCase p.name = str "alpha")) = 2) ∧
    (cC6second.1.toOption.isSome = true ∧
     cC6second.2.projects.map (fun p => p.name) = [str "A", str "A"] ∧
     cC6second.2.projects.countP
       (fun p => decide (toLowerCase p.name = str "a")) = 2) ∧
    ¬ ((2 : Nat) ≤ 1) := by
  decide

/-- C6 (amended): case-insensitive name uniqueness is not an invariant of
the store, in either cited version.  The V3.2.2 `create_project` handler
performs no duplicate-name check at all — it unconditionally appends a
project carrying the sanitized requested name (third conjunct).  The
V3.3.2 `create_project` and `rename_project` handlers reject with the
duplicate-name error when the raw requested name matches an existing
(respectively, a different) project's stored name case-insensitively; but
because they store the sanitized request while checking the raw one, the
check and the stored value can disagree (see the counterexample).  For the
V3.3.2 handlers, whenever the requested name is unchanged by sanitization,
a successful create (first conjunct) or rename (second conjunct) preserves
pairwise case-insensitive distinctness of project names. -/
theorem name_uniqueness_preserved :
    (∀ (newId now name desc ptype : JStr) (techs : List JStr) (st : Store)
        (p : Project) (st2 : Store),
      st.projects.Pairwise (fun p q => toLowerCase p.name ≠ toLowerCase q.name) →
      sanitizeForJson name = name →
      V332.createProject newId now name desc ptype techs st = (Except.ok p, st2) →
      st2.projects.Pairwise (fun p q => toLowerCase p.name ≠ toLowerCase q.name)) ∧
    (∀ (pid newName : JStr) (newDesc : Option JStr) (st : Store)
        (p : Project) (st2 : Store),
      st.projects.Pairwise (fun p q => toLowerCase p.name ≠ toLowerCase q.name) →
      sanitizeForJson newName = newName →
      (st.projects.map (fun p => p.id)).Nodup →
      V332.renameProject pid newName newDesc st = (Except.ok p, st2) →
      st2.projects.Pairwise (fun p q => toLowerCase p.name ≠ toLowerCase q.name)) ∧
    (∀ (newId now name desc ptype : JStr) (techs : List JStr) (st : Store),
      ∃ p, V322.createProject newId now name desc ptype techs st =
        (Except.ok p,
         { st with projects := st.projects ++ [p], currentProject := some p.id }) ∧
        p.name = sanitizeForJson name) := by
  refine ⟨?_, ?_, ?_⟩
  · intro newId now name desc ptype techs st p st2 hpw hsan heq
    unfold V332.createProject at heq
    rcases hfind : st.projects.find?
        (fun q => decide (toLowerCase q.name = toLowerCase name)) with - | q
    · rw [hfind] at heq
      injection heq with h1 h2
      subst h2
      show (st.projects ++ [_]).Pairwise _
      rw [List.pairwise_append]
      refine ⟨hpw, List.pairwise_singleton _ _, ?_⟩
      intro a ha b hb
      rw [List.mem_singleton] at hb
      subst hb
      have hno := List.find?_eq_none.1 hfind a ha
      simp only [decide_eq_true_eq] at hno
      simpa [hsan] using hno
    · rw [hfind] at heq
      injection heq with h1 h2
      exact Except.noConfusion h1
  · intro pid newName newDesc st p st2 hpw hsan hnodup heq
    unfold V332.renameProject at heq
    rcases hf1 : st.projects.find? (fun q => decide (q.id = pid)) with - | q
    · rw [hf1] at heq
      injection heq with h1 h2
      exact Except.noConfusion h1
    · rw [hf1] at heq
      rcases hf2 : st.projects.find?
          (fun r => decide (toLowerCase r.name = toLowerCase newName ∧ r.id ≠ pid)) with - | r
      · rw [hf2] at heq
        injection heq with h1 h2
        subst h2
        have hqmem := List.mem_of_find?_eq_some hf1
        have hqid : q.id = pid := by
          have := List.find?_some hf1
          exact of_decide_eq_true this
        obtain ⟨pre, q', suf, hdec, hq'id, hpre, hupd⟩ :=
          updateFirstProject_decomp pid (V332.renameUpdate newName newDesc)
            st.projects ⟨q, hqmem, hqid⟩
        show (updateFirstProject pid (V332.renameUpdate newName newDesc)
          st.projects).Pairwise _
        rw [hupd]
        have hother : ∀ x ∈ st.projects, x.id ≠ pid →
            toLowerCase x.name ≠ toLowerCase newName := by
          intro x hx hxid
          have := List.find?_eq_none.1 hf2 x hx
          simp only [decide_eq_true_eq] at this
          intro hname
          exact this ⟨hname, hxid⟩
        have hnewname : (V332.renameUpdate newName newDesc q').name = newName := by
          show sanitizeForJson newName = newName
          exact hsan
        have hnd : ((pre ++ q' :: suf).map (fun r => r.id)).Nodup := hdec ▸ hnodup
        rw [List.map_append, List.map_cons] at hnd
        have hnd2 := (List.nodup_append.1 hnd).2.1
        have hq'suf : q'.id ∉ suf.map (fun r => r.id) := (List.nodup_cons.1 hnd2).1
        have hxid : ∀ x ∈ pre ++ suf, x.id ≠ pid := by
          intro x hx
          rcases List.mem_append.1 hx with h | h
          · exact hpre x h
          · intro hxid
            apply hq'suf
            rw [List.mem_map]
            exact ⟨x, h, by rw [hxid, ← hq'id]⟩
        have hmemst : ∀ x, x ∈ pre → x ∈ st.projects := by
          intro x h
          rw [hdec]
          exact List.mem_append_left _ h
        have hmemst2 : ∀ x, x ∈ suf → x ∈ st.projects := by
          intro x h
          rw [hdec]
          exact List.mem_append_right _ (List.mem_cons_of_mem _ h)
        have hpw2 : (pre ++ q' :: suf).Pairwise
            (fun a b => toLowerCase a.name ≠ toLowerCase b.name) := hdec ▸ hpw
        rw [List.pairwise_append] at hpw2 ⊢
        obtain ⟨hpwpre, hpwcons, hcross⟩ := hpw2
        rw [List.pairwise_cons] at hpwcons ⊢
        refine ⟨hpwpre, ⟨?_, hpwcons.2⟩, ?_⟩
        · intro b hb
          rw [hnewname]
          exact fun h =>
            hother b (hmemst2 b hb) (hxid b (List.mem_append_right pre hb)) h.symm
        · intro a ha b hb
          rcases List.mem_cons.1 hb with h | h
          · subst h
            rw [hnewname]
            exact hother a (hmemst a ha) (hxid a (List.mem_append_left suf ha))
          · exact hcross a ha b (List.mem_cons_of_mem _ h)
      · rw [hf2] at heq
        injection heq with h1 h2
        exact Except.noConfusion h1
  · intro newId now name desc ptype techs st
    exact ⟨_, rfl, rfl⟩

/-- Witness for the amended C6: creating "A" in the empty store yields a
store whose project names are pairwise distinct case-insensitively. -/
theorem name_uniqueness_preserved_witness :
    sanitizeForJson (str "A") = str "A" ∧
    cStoreC6a.projects.Pairwise
      (fun p q => toLowerCase p.name ≠ toLowerCase q.name) := by
  refine ⟨by decide, ?_⟩
  have h : V332.createProject (str "id1") (str "t") (str "A") (str "d")
      (str "custom") [] {} = (Except.ok cC6proj, cStoreC6a) := by decide
  exact name_uniqueness_preserved.1 (str "id1") (str "t") (str "A") (str "d")
    (str "custom") [] {} cC6proj cStoreC6a (by simp) (by decide) h

/-- C9: a successful `rename_project` changes only the addressed project's
name (and its description when a non-empty new description is supplied):
the store's conversations, notes, decisions, documentation, current-project
pointer and legacy mapping are untouched; the projects before and after the
renamed one are untouched; and the renamed project keeps its id, created
timestamp, type, technologies, phase and status. -/
theorem rename_project_frame (pid newName : JStr) (newDesc : Option JStr)
    (st : Store) (p : Project) (st2 : Store)
    (heq : V332.renameProject pid newName newDesc st = (Except.ok p, st2)) :
    st2.conversations = st.conversations ∧ st2.notes = st.notes ∧
    st2.decisions = st.decisions ∧ st2.documentation = st.documentation ∧
    st2.currentProject = st.currentProject ∧ st2.idMapping = st.idMapping ∧
    ∃ pre q suf, st.projects = pre ++ q :: suf ∧ q.id = pid ∧
      st2.projects = pre ++ V332.renameUpdate newName newDesc q :: suf ∧
      (V332.renameUpdate newName newDesc q).id = q.id ∧
      (V332.renameUpdate newName newDesc q).created = q.created ∧
      (V332.renameUpdate newName newDesc q).type = q.type ∧
      (V332.renameUpdate newName newDesc q).technologies = q.technologies ∧
      (V332.renameUpdate newName newDesc q).phase = q.phase ∧
      (V332.renameUpdate newName newDesc q).status = q.status ∧
      (V332.renameUpdate newName newDesc q).name = sanitizeForJson newName ∧
      (newDesc = none →
        (V332.renameUpdate newName newDesc q).description = q.description) ∧
      (∀ d, newDesc = some d →
        (V332.renameUpdate newName newDesc q).description =
          (if d.isEmpty then q.description else sanitizeForJson d)) := by
  unfold V332.renameProject at heq
  rcases hf1 : st.projects.find? (fun q => decide (q.id = pid)) with - | q
  · rw [hf1] at heq
    injection heq with h1 h2
    exact Except.noConfusion h1
  · rw [hf1] at heq
    rcases hf2 : st.projects.find?
        (fun r => decide (toLowerCase r.name = toLowerCase newName ∧ r.id ≠ pid)) with - | r
    · rw [hf2] at heq
      injection heq with h1 h2
      subst h2
      have hqmem := List.mem_of_find?_eq_some hf1
      have hqid : q.id = pid := by
        have := List.find?_some hf1
        exact of_decide_eq_true this
      obtain ⟨pre, q', suf, hdec, hq'id, hpre, hupd⟩ :=
        updateFirstProject_decomp pid (V332.renameUpdate newName newDesc)
          st.projects ⟨q, hqmem, hqid⟩
      exact ⟨rfl, rfl, rfl, rfl, rfl, rfl, pre, q', suf, hdec, hq'id,
        hupd, rfl, rfl, rfl, rfl, rfl, rfl, rfl,
        fun h => by subst h; rfl, fun d h => by subst h; rfl⟩
    · rw [hf2] at heq
      injection heq with h1 h2
      exact Except.noConfusion h1

/-- The result of renaming project `p1` of the concrete store to "Gamma". -/
def cC9res : Except Err Project × Store :=
  V332.renameProject (str "p1") (str "Gamma") none cStoreC1

/-- Witness for C9: on the concrete store, renaming `p1` to "Gamma"
succeeds and leaves conversations, notes, decisions, documentation, the
current-project pointer and the mapping untouched. -/
theorem rename_project_frame_witness :
    cC9res.1 = Except.ok { cProject1 with name := str "Gamma" } ∧
    cC9res.2.conversations = cStoreC1.conversations ∧
    cC9res.2.notes = cStoreC1.notes ∧
    cC9res.2.decisions = cStoreC1.decisions ∧
    cC9res.2.documentation = cStoreC1.documentation ∧
    cC9res.2.currentProject = cStoreC1.currentProject := by
  have h1 : cC9res.1 = Except.ok { cProject1 with name := str "Gamma" } := by decide
  have hpair : V332.renameProject (str "p1") (str "Gamma") none cStoreC1 =
      (Except.ok { cProject1 with name := str "Gamma" }, cC9res.2) := by
    rw [← h1]
    rfl
  obtain ⟨hc, hn, hd, hdoc, hcur, hmapeq, -⟩ :=
    rename_project_frame (str "p1") (str "Gamma") none cStoreC1
      { cProject1 with name := str "Gamma" } cC9res.2 hpair
  exact ⟨h1, hc, hn, hd, hdoc, hcur⟩


/-- Keys of an association list (the object's own property names). -/
def mapKeys (m : Mapping) : List JStr := m.map (fun kv => kv.1)

/-- A key is absent exactly when `lookupM` yields nothing. -/
theorem lookupM_eq_none_iff (k : JStr) (m : Mapping) :
    lookupM k m = none ↔ k ∉ mapKeys m := by
  unfold lookupM mapKeys
  rw [Option.map_eq_none', List.find?_eq_none]
  constructor
  · intro h hk
    rw [List.mem_map] at hk
    obtain ⟨kv, hkv, hfst⟩ := hk
    exact h kv hkv (by simp [hfst])
  · intro h kv hkv hp
    apply h
    rw [List.mem_map]
    exact ⟨kv, hkv, of_decide_eq_true hp⟩

/-- Searching a mapped association list whose mapping preserves keys. -/
theorem find?_map_keys (f : JStr × MapEntry → JStr × MapEntry)
    (hf : ∀ kv, (f kv).1 = kv.1) (k : JStr) (l : Mapping) :
    (l.map f).find? (fun kv => kv.1 = k) =
      (l.find? (fun kv => kv.1 = k)).map f := by
  induction l with
  | nil => rfl
  | cons hd tl ih =>
    by_cases h : hd.1 = k
    · simp [List.find?_cons, hf hd, h]
    · simp [List.find?_cons, hf hd, h, ih]

/-- Filtering by a predicate that holds on every sought element does not
change the search result. -/
theorem find?_filter_true {α : Type} (p q : α → Bool) (l : List α)
    (h : ∀ x ∈ l, p x = true → q x = true) :
    (l.filter q).find? p = l.find? p := by
  induction l with
  | nil => rfl
  | cons hd tl ih =>
    have ihtl := ih (fun x hx hp => h x (List.mem_cons_of_mem hd hx) hp)
    by_cases hq : q hd
    · rw [List.filter_cons_of_pos hq]
      by_cases hp : p hd
      · simp [List.find?_cons, hp]
      · simp [List.find?_cons, hp, ihtl]
    · have hp : p hd = false := by
        rcases hph : p hd with - | -
        · rfl
        · exact absurd (h hd (List.mem_cons_self hd tl) hph) hq
      rw [List.filter_cons_of_neg hq]
      simp [List.find?_cons, hp, ihtl]

/-- Lookup in a spread `{ ...a, ...b }` prefers `b` and falls back to `a`. -/
theorem lookupM_mergeMapping (k : JStr) (a b : Mapping) :
    lookupM k (mergeMapping a b) =
      Option.orElse (lookupM k b) (fun _ => lookupM k a) := by
  have hmapf := find?_map_keys
    (fun kv => (kv.1, (lookupM kv.1 b).getD kv.2)) (fun kv => rfl) k a
  have hgoal : lookupM k (mergeMapping a b) =
      ((a.map (fun kv => (kv.1, (lookupM kv.1 b).getD kv.2))).find?
          (fun kv => decide (kv.1 = k)) |>.or
        ((b.filter (fun kv => decide (lookupM kv.1 a = none))).find?
          (fun kv => decide (kv.1 = k)))).map (fun kv => kv.2) := by
    show (List.find? (fun kv => decide (kv.1 = k)) (mergeMapping a b)).map
      (fun kv => kv.2) = _
    rw [mergeMapping, List.find?_append]
  rw [hgoal, hmapf]
  rcases ha : a.find? (fun kv => decide (kv.1 = k)) with - | kv0
  · have hka : lookupM k a = none := by
      show (a.find? (fun kv => decide (kv.1 = k))).map (fun kv => kv.2) = none
      rw [ha]
      rfl
    have hfilt := find?_filter_true (fun kv : JStr × MapEntry => decide (kv.1 = k))
      (fun kv => decide (lookupM kv.1 a = none)) b
      (fun kv hkv hp => by
        show decide (lookupM kv.1 a = none) = true
        have hk : kv.1 = k := of_decide_eq_true hp
        rw [hk, hka]
        decide)
    rw [ha, hfilt, hka]
    rcases hb : b.find? (fun kv => decide (kv.1 = k)) with - | kvb
    · have hkb : lookupM k b = none := by
        show (b.find? (fun kv => decide (kv.1 = k))).map (fun kv => kv.2) = none
        rw [hb]
        rfl
      rw [hb, hkb]
      rfl
    · have hkb : lookupM k b = some kvb.2 := by
        show (b.find? (fun kv => decide (kv.1 = k))).map (fun kv => kv.2) =
          some kvb.2
        rw [hb]
        rfl
      rw [hb, hkb]
      rfl
  · have hk0 : kv0.1 = k := by
      have := List.find?_some ha
      exact of_decide_eq_true this
    have hka : lookupM k a = some kv0.2 := by
      show (a.find? (fun kv => decide (kv.1 = k))).map (fun kv => kv.2) =
        some kv0.2
      rw [ha]
      rfl
    rw [ha, hka]
    show some ((lookupM kv0.1 b).getD kv0.2) = _
    rw [hk0]
    rcases hb : lookupM k b with - | w
    · rfl
    · rfl


/-- Keys survive the value-overwrite pass of a spread. -/
theorem mapKeys_map_overwrite (a b : Mapping) :
    mapKeys (a.map (fun kv => (kv.1, (lookupM kv.1 b).getD kv.2))) = mapKeys a := by
  unfold mapKeys
  rw [List.map_map]
  rfl

/-- When every key of `b` already occurs in `a`, the spread `{ ...a, ...b }`
has exactly the keys of `a`, in order. -/
theorem mergeMapping_keys_covered (a b : Mapping)
    (h : ∀ k ∈ mapKeys b, k ∈ mapKeys a) :
    mapKeys (mergeMapping a b) = mapKeys a := by
  unfold mergeMapping
  have hfilt : b.filter (fun kv => decide (lookupM kv.1 a = none)) = [] := by
    rw [List.filter_eq_nil_iff]
    intro kv hkv
    simp only [decide_eq_true_eq]
    rw [lookupM_eq_none_iff]
    intro hcontr
    exact hcontr (h kv.1 (List.mem_map_of_mem _ hkv))
  rw [hfilt, List.append_nil]
  exact mapKeys_map_overwrite a b

/-- The keys of a spread: those of `a`, then the new ones of `b`. -/
theorem mapKeys_mergeMapping (a b : Mapping) :
    mapKeys (mergeMapping a b) =
      mapKeys a ++ mapKeys (b.filter (fun kv => decide (lookupM kv.1 a = none))) := by
  unfold mergeMapping mapKeys
  rw [List.map_append, List.map_map]
  rfl

/-- Keys of `a` persist in the spread `{ ...a, ...b }`. -/
theorem mem_keys_mergeMapping_left (a b : Mapping) (k : JStr)
    (h : k ∈ mapKeys a) : k ∈ mapKeys (mergeMapping a b) := by
  rw [mapKeys_mergeMapping, List.mem_append]
  exact Or.inl h

/-- Keys of `b` persist in the spread `{ ...a, ...b }`. -/
theorem mem_keys_mergeMapping_right (a b : Mapping) (k : JStr)
    (h : k ∈ mapKeys b) : k ∈ mapKeys (mergeMapping a b) := by
  by_cases ha : k ∈ mapKeys a
  · exact mem_keys_mergeMapping_left a b k ha
  · rw [mapKeys_mergeMapping, List.mem_append]
    right
    unfold mapKeys at h ⊢
    rw [List.mem_map] at h ⊢
    obtain ⟨kv, hkv, hfst⟩ := h
    refine ⟨kv, ?_, hfst⟩
    rw [List.mem_filter]
    refine ⟨hkv, ?_⟩
    simp only [decide_eq_true_eq]
    rw [lookupM_eq_none_iff, hfst]
    exact ha

/-- The spread of two mappings with duplicate-free keys again has
duplicate-free keys. -/
theorem mergeMapping_nodup (a b : Mapping) (ha : (mapKeys a).Nodup)
    (hb : (mapKeys b).Nodup) : (mapKeys (mergeMapping a b)).Nodup := by
  rw [mapKeys_mergeMapping, List.nodup_append]
  refine ⟨ha, ?_, ?_⟩
  · have hsub : (b.filter (fun kv => decide (lookupM kv.1 a = none))).Sublist b :=
      List.filter_sublist b
    unfold mapKeys
    unfold mapKeys at hb
    exact (hsub.map (fun kv => kv.1)).nodup hb
  · intro k hk1 hk2
    unfold mapKeys at hk2
    rw [List.mem_map] at hk2
    obtain ⟨kv, hkv, hfst⟩ := hk2
    rw [List.mem_filter] at hkv
    have h2 := hkv.2
    simp only [decide_eq_true_eq] at h2
    rw [lookupM_eq_none_iff] at h2
    exact h2 (hfst ▸ hk1)

/-- Lookup of the head key. -/
theorem lookupM_cons_self (kv : JStr × MapEntry) (m : Mapping) :
    lookupM kv.1 (kv :: m) = some kv.2 := by
  unfold lookupM
  rw [List.find?_cons]
  simp

/-- Lookup skips a head entry with a different key. -/
theorem lookupM_cons_ne (k : JStr) (kv : JStr × MapEntry) (m : Mapping)
    (h : ¬ kv.1 = k) : lookupM k (kv :: m) = lookupM k m := by
  unfold lookupM
  rw [List.find?_cons]
  simp [h]

/-- Two mappings with the same ordered duplicate-free keys and the same
lookups are equal. -/
theorem mapping_ext : ∀ (a b : Mapping), mapKeys a = mapKeys b →
    (mapKeys a).Nodup → (∀ k, lookupM k a = lookupM k b) → a = b := by
  intro a
  induction a with
  | nil =>
    intro b hk _ _
    have h : mapKeys b = [] := hk.symm
    unfold mapKeys at h
    rw [List.map_eq_nil_iff] at h
    rw [h]
  | cons kv0 a' ih =>
    intro b hk hnd hl
    cases b with
    | nil => simp [mapKeys] at hk
    | cons kvb b' =>
      unfold mapKeys at hk
      rw [List.map_cons, List.map_cons] at hk
      injection hk with hk1 hk2
      have hv : some kv0.2 = some kvb.2 := by
        have h0 := hl kv0.1
        rw [lookupM_cons_self] at h0
        rw [hk1] at h0
        rw [lookupM_cons_self] at h0
        exact h0
      have hhd : kv0 = kvb := by
        have h2 : kv0.2 = kvb.2 := Option.some.inj hv
        exact Prod.ext hk1 h2
      unfold mapKeys at hnd
      rw [List.map_cons, List.nodup_cons] at hnd
      have htail : a' = b' := by
        refine ih b' hk2 hnd.2 ?_
        intro k
        by_cases hkk : kv0.1 = k
        · have hna : lookupM k a' = none := by
            rw [lookupM_eq_none_iff]
            unfold mapKeys
            rw [← hkk]
            exact hnd.1
          have hnb : lookupM k b' = none := by
            rw [lookupM_eq_none_iff]
            unfold mapKeys
            rw [← hk2, ← hkk]
            exact hnd.1
          rw [hna, hnb]
        · have h0 := hl k
          rw [lookupM_cons_ne k kv0 a' hkk,
            lookupM_cons_ne k kvb b' (by rw [← hk1]; exact hkk)] at h0
          exact h0
      rw [hhd, htail]


/-- Lookup through a fold of spreads: later mappings take precedence, the
seed is the final fallback. -/
theorem lookupM_foldl_merge (k : JStr) :
    ∀ (maps : List Mapping) (m : Mapping),
      lookupM k (maps.foldl mergeMapping m) =
        maps.foldl (fun acc b => Option.orElse (lookupM k b) (fun _ => acc))
          (lookupM k m) := by
  intro maps
  induction maps with
  | nil => intro m; rfl
  | cons b bs ih =>
    intro m
    rw [List.foldl_cons, List.foldl_cons, ih, lookupM_mergeMapping]

/-- The lookup fold factors through its seed. -/
theorem foldl_orElse_decomp (k : JStr) :
    ∀ (maps : List Mapping) (a : Option MapEntry),
      maps.foldl (fun acc b => Option.orElse (lookupM k b) (fun _ => acc)) a =
        Option.orElse
          (maps.foldl (fun acc b => Option.orElse (lookupM k b) (fun _ => acc)) none)
          (fun _ => a) := by
  intro maps
  induction maps with
  | nil => intro a; rfl
  | cons b bs ih =>
    intro a
    rw [List.foldl_cons, List.foldl_cons, ih (Option.orElse (lookupM k b) _),
      ih (Option.orElse (lookupM k b) _)]
    rcases bs.foldl (fun acc b => Option.orElse (lookupM k b) (fun _ => acc)) none with - | v
    · rcases lookupM k b with - | w
      · rfl
      · rfl
    · rfl

/-- Running the lookup fold on its own result changes nothing. -/
theorem foldl_orElse_absorb (k : JStr) (maps : List Mapping) (a : Option MapEntry) :
    maps.foldl (fun acc b => Option.orElse (lookupM k b) (fun _ => acc))
      (maps.foldl (fun acc b => Option.orElse (lookupM k b) (fun _ => acc)) a) =
    maps.foldl (fun acc b => Option.orElse (lookupM k b) (fun _ => acc)) a := by
  rw [foldl_orElse_decomp k maps a,
    foldl_orElse_decomp k maps
      (Option.orElse (maps.foldl (fun acc b => Option.orElse (lookupM k b) (fun _ => acc)) none) _)]
  rcases maps.foldl (fun acc b => Option.orElse (lookupM k b) (fun _ => acc)) none with - | v
  · rfl
  · rfl

/-- The seed's keys persist through a fold of spreads. -/
theorem mem_keys_foldl_merge (k : JStr) :
    ∀ (maps : List Mapping) (m : Mapping),
      k ∈ mapKeys m → k ∈ mapKeys (maps.foldl mergeMapping m) := by
  intro maps
  induction maps with
  | nil => intro m h; exact h
  | cons b bs ih =>
    intro m h
    rw [List.foldl_cons]
    exact ih _ (mem_keys_mergeMapping_left m b k h)

/-- Every folded mapping's keys occur in the fold's result. -/
theorem keys_sub_foldl_merge :
    ∀ (maps : List Mapping) (m b : Mapping), b ∈ maps →
      ∀ k ∈ mapKeys b, k ∈ mapKeys (maps.foldl mergeMapping m) := by
  intro maps
  induction maps with
  | nil => intro m b hb; simp at hb
  | cons b0 bs ih =>
    intro m b hb k hk
    rw [List.foldl_cons]
    rcases List.mem_cons.1 hb with h | h
    · subst h
      exact mem_keys_foldl_merge k bs _ (mem_keys_mergeMapping_right m b k hk)
    · exact ih _ b h k hk

/-- When every folded mapping's keys already occur in the seed, the fold
keeps exactly the seed's keys. -/
theorem keys_foldl_merge_covered :
    ∀ (maps : List Mapping) (m : Mapping),
      (∀ b ∈ maps, ∀ k ∈ mapKeys b, k ∈ mapKeys m) →
      mapKeys (maps.foldl mergeMapping m) = mapKeys m := by
  intro maps
  induction maps with
  | nil => intro m _; rfl
  | cons b bs ih =>
    intro m h
    rw [List.foldl_cons]
    have hkeys : mapKeys (mergeMapping m b) = mapKeys m :=
      mergeMapping_keys_covered m b (h b (List.mem_cons_self b bs))
    rw [ih (mergeMapping m b)
      (fun b' hb' k hk => hkeys ▸ h b' (List.mem_cons_of_mem b hb') k hk)]
    exact hkeys

/-- Duplicate-freeness of keys survives a fold of spreads. -/
theorem nodup_foldl_merge :
    ∀ (maps : List Mapping) (m : Mapping), (mapKeys m).Nodup →
      (∀ b ∈ maps, (mapKeys b).Nodup) →
      (mapKeys (maps.foldl mergeMapping m)).Nodup := by
  intro maps
  induction maps with
  | nil => intro m hm _; exact hm
  | cons b bs ih =>
    intro m hm hb
    rw [List.foldl_cons]
    exact ih _ (mergeMapping_nodup m b hm (hb b (List.mem_cons_self b bs)))
      (fun b' hb' => hb b' (List.mem_cons_of_mem b hb'))

/-- Folding the same spreads a second time over their own result is the
identity (mapping-level idempotence of the migration merge). -/
theorem foldl_merge_idem (maps : List Mapping) (m : Mapping)
    (hm : (mapKeys m).Nodup) (hmaps : ∀ b ∈ maps, (mapKeys b).Nodup) :
    (maps.foldl mergeMapping (maps.foldl mergeMapping m)) =
      maps.foldl mergeMapping m := by
  have hcov : ∀ b ∈ maps, ∀ k ∈ mapKeys b,
      k ∈ mapKeys (maps.foldl mergeMapping m) :=
    fun b hb k hk => keys_sub_foldl_merge maps m b hb k hk
  refine mapping_ext _ _ ?_ ?_ ?_
  · exact keys_foldl_merge_covered maps (maps.foldl mergeMapping m) hcov
  · rw [keys_foldl_merge_covered maps (maps.foldl mergeMapping m) hcov]
    exact nodup_foldl_merge maps m hm hmaps
  · intro k
    rw [lookupM_foldl_merge k maps (maps.foldl mergeMapping m),
      lookupM_foldl_merge k maps m]
    exact foldl_orElse_absorb k maps (lookupM k m)


/-- Every incoming record's id is present after the id-based merge. -/
theorem newById_subset_ids {α : Type} (idOf : α → JStr) (cur inc : List α) :
    ∀ x ∈ inc, idOf x ∈ (cur ++ V332.newById idOf cur inc).map idOf := by
  intro x hx
  rw [List.map_append, List.mem_append]
  by_cases h : idOf x ∈ cur.map idOf
  · exact Or.inl h
  · right
    rw [List.mem_map]
    refine ⟨x, ?_, rfl⟩
    unfold V332.newById
    rw [List.mem_filter]
    exact ⟨hx, by simpa using h⟩

/-- When every incoming id is already present, the id-based merge adds
nothing. -/
theorem newById_eq_nil {α : Type} (idOf : α → JStr) (cur inc : List α)
    (h : ∀ x ∈ inc, idOf x ∈ cur.map idOf) : V332.newById idOf cur inc = [] := by
  unfold V332.newById
  rw [List.filter_eq_nil_iff]
  intro x hx
  simp only [decide_eq_true_eq, Decidable.not_not]
  exact h x hx

/-- Every entity id of the legacy location occurs in the store: the
invariant that makes a second migration a no-op. -/
def coveredBy (src : V332.LegacyData) (Y : Store) : Prop :=
  (∀ p ∈ src.projects, p.id ∈ Y.projects.map Project.id) ∧
  (∀ c ∈ src.conversations, c.id ∈ Y.conversations.map Conversation.id) ∧
  (∀ n ∈ src.notes, n.id ∈ Y.notes.map Note.id) ∧
  (∀ d ∈ src.decisions, d.id ∈ Y.decisions.map TechnicalDecision.id) ∧
  (∀ d ∈ src.documentation, d.id ∈ Y.documentation.map Documentation.id)

/-- After migrating a location, that location is covered. -/
theorem migrateOne_covers (Y : Store) (src : V332.LegacyData) :
    coveredBy src (V332.migrateOne Y src).1 :=
  ⟨newById_subset_ids Project.id Y.projects src.projects,
   newById_subset_ids Conversation.id Y.conversations src.conversations,
   newById_subset_ids Note.id Y.notes src.notes,
   newById_subset_ids TechnicalDecision.id Y.decisions src.decisions,
   newById_subset_ids Documentation.id Y.documentation src.documentation⟩

/-- Migration only appends, so coverage is preserved by further steps. -/
theorem coveredBy_migrateOne (src src' : V332.LegacyData) (Y : Store)
    (h : coveredBy src Y) : coveredBy src (V332.migrateOne Y src').1 := by
  obtain ⟨h1, h2, h3, h4, h5⟩ := h
  refine ⟨?_, ?_, ?_, ?_, ?_⟩ <;>
    · intro x hx
      unfold V332.migrateOne
      dsimp only
      rw [List.map_append, List.mem_append]
      left
      first
        | exact h1 x hx
        | exact h2 x hx
        | exact h3 x hx
        | exact h4 x hx
        | exact h5 x hx

/-- Coverage is preserved by the whole migration loop. -/
theorem coveredBy_migrateFold (src : V332.LegacyData) :
    ∀ (sources : List V332.LegacyData) (p : Store × Nat),
      coveredBy src p.1 → coveredBy src (V332.migrateFold sources p).1 := by
  intro sources
  induction sources with
  | nil => intro p h; exact h
  | cons src' rest ih =>
    intro p h
    exact ih _ (coveredBy_migrateOne src src' p.1 h)

/-- After the migration loop, every processed location is covered. -/
theorem migrateFold_covers :
    ∀ (sources : List V332.LegacyData) (p : Store × Nat) (src : V332.LegacyData),
      src ∈ sources → coveredBy src (V332.migrateFold sources p).1 := by
  intro sources
  induction sources with
  | nil => intro p src h; simp at h
  | cons src' rest ih =>
    intro p src h
    rcases List.mem_cons.1 h with h | h
    · subst h
      exact coveredBy_migrateFold src rest _ (migrateOne_covers p.1 src)
    · exact ih _ src h

/-- The mapping component of the migration loop is the fold of the object
spreads of the locations' mappings. -/
theorem migrateFold_idMapping :
    ∀ (sources : List V332.LegacyData) (p : Store × Nat),
      (V332.migrateFold sources p).1.idMapping =
        (sources.map V332.LegacyData.mapping).foldl mergeMapping p.1.idMapping := by
  intro sources
  induction sources with
  | nil => intro p; rfl
  | cons src rest ih =>
    intro p
    rw [V332.migrateFold, ih]
    rfl

/-- A fully covered migration step merges only the mapping and counts
nothing. -/
theorem migrateOne_covered (Y : Store) (src : V332.LegacyData)
    (h : coveredBy src Y) :
    V332.migrateOne Y src =
      ({ Y with idMapping := mergeMapping Y.idMapping src.mapping }, 0) := by
  obtain ⟨h1, h2, h3, h4, h5⟩ := h
  unfold V332.migrateOne
  rw [newById_eq_nil Project.id Y.projects src.projects h1,
    newById_eq_nil Conversation.id Y.conversations src.conversations h2,
    newById_eq_nil Note.id Y.notes src.notes h3,
    newById_eq_nil TechnicalDecision.id Y.decisions src.decisions h4,
    newById_eq_nil Documentation.id Y.documentation src.documentation h5]
  simp

/-- A fully covered migration loop merges only the mappings and keeps the
accumulated count. -/
theorem migrateFold_covered :
    ∀ (sources : List V332.LegacyData) (Y : Store) (n : Nat),
      (∀ src ∈ sources, coveredBy src Y) →
      V332.migrateFold sources (Y, n) =
        ({ Y with idMapping :=
            (sources.map V332.LegacyData.mapping).foldl mergeMapping Y.idMapping },
         n) := by
  intro sources
  induction sources with
  | nil => intro Y n _; rfl
  | cons src rest ih =>
    intro Y n h
    rw [V332.migrateFold,
      migrateOne_covered Y src (h src (List.mem_cons_self src rest))]
    have hrest : ∀ src' ∈ rest,
        coveredBy src' { Y with idMapping := mergeMapping Y.idMapping src.mapping } :=
      fun src' hsrc' => h src' (List.mem_cons_of_mem src hsrc')
    rw [ih _ _ hrest]
    rfl


/-- C8: `migrateLegacyData` is idempotent: with the same legacy documents
present and nothing new created in between, a second run reports zero newly
merged records and leaves every in-memory collection — projects,
conversations, notes, decisions, documentation, the current-project pointer
and the legacy-id mapping — exactly as the first run left them.  (JavaScript
object keys are unique, so the mappings are assumed duplicate-key-free.) -/
theorem migrate_legacy_idempotent (sources : List V332.LegacyData) (st : Store)
    (hnd : (mapKeys st.idMapping).Nodup)
    (hsrc : ∀ src ∈ sources, (mapKeys src.mapping).Nodup) :
    V332.detectAndMigrateLegacyData sources
        (V332.detectAndMigrateLegacyData sources st).1 =
      ((V332.detectAndMigrateLegacyData sources st).1,
       { found := !sources.isEmpty, migrated := 0 }) := by
  set X := (V332.detectAndMigrateLegacyData sources st).1 with hXdef
  have hXfold : X = (V332.migrateFold sources (st, 0)).1 := rfl
  have hcov : ∀ src ∈ sources, coveredBy src X := by
    intro src hs
    rw [hXfold]
    exact migrateFold_covers sources (st, 0) src hs
  have hXm : X.idMapping =
      (sources.map V332.LegacyData.mapping).foldl mergeMapping st.idMapping := by
    rw [hXfold]
    exact migrateFold_idMapping sources (st, 0)
  have hmaps_nodup : ∀ b ∈ sources.map V332.LegacyData.mapping,
      (mapKeys b).Nodup := by
    intro b hb
    rw [List.mem_map] at hb
    obtain ⟨src, hs, rfl⟩ := hb
    exact hsrc src hs
  have hmapeq : (sources.map V332.LegacyData.mapping).foldl mergeMapping
      X.idMapping = X.idMapping := by
    rw [hXm]
    exact foldl_merge_idem (sources.map V332.LegacyData.mapping) st.idMapping
      hnd hmaps_nodup
  have hrun := migrateFold_covered sources X 0 hcov
  have hunfold : V332.detectAndMigrateLegacyData sources X =
      ((V332.migrateFold sources (X, 0)).1,
       { found := !sources.isEmpty,
         migrated := (V332.migrateFold sources (X, 0)).2 }) := rfl
  rw [hunfold, hrun]
  dsimp only
  rw [hmapeq]

/-- A concrete legacy location holding one project and one mapping entry. -/
def cLegacy1 : V332.LegacyData :=
  { projects := [cProject2],
    mapping := [(str "k",
      { newId := str "x", projectId := str "p2", title := str "t",
        date := str "d", phase := str "ph" })] }

/-- Witness for C8: migrating the concrete legacy location into the empty
store twice — the second run immediately after the first, with no new
legacy data — reports zero merged records and returns the first run's store
unchanged. -/
theorem migrate_legacy_idempotent_witness :
    (mapKeys ({} : Store).idMapping).Nodup ∧
    V332.detectAndMigrateLegacyData [cLegacy1]
        (V332.detectAndMigrateLegacyData [cLegacy1] ({} : Store)).1 =
      ((V332.detectAndMigrateLegacyData [cLegacy1] ({} : Store)).1,
       { found := true, migrated := 0 }) := by
  refine ⟨by decide, ?_⟩
  exact migrate_legacy_idempotent [cLegacy1] {} (by decide) (by decide)

end MCP
